import Mathlib

/-!
# alertmanager-kit: client construction, peer discovery, alert fan-out and translation

A shallow embedding of `client.go`, `config.go` and `types.go` of
`kubesphere/alertmanager-kit`.

Conventions of the embedding.

* A Go pointer field (`*int`, `*string`, `*ServiceReference`) is an `Option`; dereferencing
  `none` is a runtime panic, which the embedding makes an explicit outcome.  The elements of a
  slice of pointers (`[]*RawAlert`, `[]*models.PeerStatus`) are taken non-nil.
* A Go `error` is the message it carries.
* Library functions that are not part of the repository (`url.Parse`, `strconv.Atoi`) are the
  fields of a `Stdlib` record that every definition takes as a parameter: general theorems hold
  for every behaviour of these functions.  Closed examples use `goStdlib`, a reference behaviour
  on the fragment of inputs that occurs in them.
* A `*client.Alertmanager` is a handle with an allocation identity; the allocation counter is
  threaded through the functions that call `cli.NewAlertmanagerClient`, so that the number of
  connections a function constructs is the growth of the counter.
* A Go `map` is an association list without repeated keys.  Where the order in which a `range`
  loop visits a map can be observed, it is a parameter.
* A wire call is an oracle supplied by the environment, and the calls issued are recorded in a
  trace.
* `sync.Mutex` is not modelled: the embedding is sequential.
-/

namespace Kit

/-! ## Strings -/

/-- Go `strings.Split(s, sep)` for a one-character separator, on the characters of `s`:
the pieces between the separators, always at least one piece. -/
def splitChars (sep : Char) : List Char → List (List Char)
  | [] => [[]]
  | c :: cs =>
    if c = sep then [] :: splitChars sep cs
    else
      match splitChars sep cs with
      | [] => [[c]]
      | p :: ps => (c :: p) :: ps

/-- Go `strings.Split(s, ":")`. -/
def splitColon (s : String) : List String :=
  (splitChars ':' s.data).map String.mk

/-- Go `fmt.Sprintf("%s://%s:%d", scheme, host, port)`. -/
def sprintfURL (scheme host : String) (port : Int) : String :=
  scheme ++ "://" ++ host ++ ":" ++ toString port

/-- Go `fmt.Sprintf("%s.%s.svc", name, namespace)`. -/
def sprintfSvc (name ns : String) : String :=
  name ++ "." ++ ns ++ ".svc"

/-! ## Library environment -/

/-- A Go `error`, represented by its message. -/
abbrev Error := String

deriving instance DecidableEq for Except

/-- The fields of `net/url.URL` that are read. -/
structure URL where
  Scheme : String
  Host : String
  Path : String
deriving DecidableEq, Repr

/-- The library functions `NewClient` and `getBackends` call. -/
structure Stdlib where
  /-- Go `url.Parse`. -/
  urlParse : String → Except Error URL
  /-- Go `strconv.Atoi`. -/
  atoi : String → Except Error Int

/-! ## config.go -/

/-- The `ServiceReference` of `config.go`. -/
structure ServiceReference where
  Namespace : String
  Name : String
  Port : Option Int
  TargetPort : Option Int
deriving DecidableEq, Repr

/-- The `ClientConfig` of `config.go`. -/
structure ClientConfig where
  URL : String
  Service : Option ServiceReference
deriving DecidableEq, Repr

/-! ## Connection handles and the registry -/

/-- A `*client.Alertmanager`: the handle `cli.NewAlertmanagerClient` returns.  `id` is the
identity of the allocation, `target` the URL the handle was built from. -/
structure Alertmanager where
  id : Nat
  target : URL
deriving DecidableEq, Repr

/-- Go `cli.NewAlertmanagerClient(u)`: a fresh handle, allocated at `heap`. -/
def NewAlertmanagerClient (heap : Nat) (u : URL) : Alertmanager × Nat :=
  (⟨heap, u⟩, heap + 1)

/-- A Go `map[string]V`: an association list without repeated keys. -/
structure GoMap (V : Type) where
  entries : List (String × V)
  nodup : (entries.map Prod.fst).Nodup

namespace GoMap

variable {V : Type}

instance [DecidableEq V] : DecidableEq (GoMap V) := fun a b =>
  decidable_of_iff (a.entries = b.entries)
    ⟨fun h => by cases a; cases b; cases h; rfl, fun h => by rw [h]⟩

/-- Go `make(map[string]V)`. -/
def empty : GoMap V := ⟨[], List.nodup_nil⟩

/-- The keys of the map. -/
def keys (m : GoMap V) : List String := m.entries.map Prod.fst

/-- The values of the map. -/
def values (m : GoMap V) : List V := m.entries.map Prod.snd

/-- Go `v, ok := m[k]`. -/
def get (m : GoMap V) (k : String) : Option V :=
  (m.entries.find? (fun e => e.1 = k)).map Prod.snd

/-- Go `delete(m, k)`. -/
def delete (m : GoMap V) (k : String) : GoMap V :=
  ⟨m.entries.filter (fun e => e.1 ≠ k), by
    have h := m.nodup
    exact (List.Nodup.sublist (List.Sublist.map _ (List.filter_sublist _)) h)⟩

/-- Go `m[k] = v`. -/
def set (m : GoMap V) (k : String) (v : V) : GoMap V :=
  ⟨(m.delete k).entries ++ [(k, v)], by
    have h := (m.delete k).nodup
    rw [List.map_append, List.nodup_append]
    refine ⟨h, by simp, ?_⟩
    intro a ha hb
    simp only [List.map_cons, List.map_nil, List.mem_singleton] at hb
    subst hb
    simp [delete, List.mem_map, List.mem_filter] at ha⟩

end GoMap

/-- The anonymous `config` struct of `AlertmanagerClient`. -/
structure Config where
  scheme : String
  host : String
  port : Option Int
  targetPort : Option Int
deriving DecidableEq, Repr

/-- The `AlertmanagerClient` of `client.go` (without its mutex). -/
structure AlertmanagerClient where
  config : Config
  balancer : Alertmanager
  backends : GoMap Alertmanager
deriving DecidableEq

/-! ## NewClient -/

/-- The first `if`/`else if`/`else` of `NewClient` (lines 36-61): host, port and target-port
as the configuration gives them, before the defaults are applied. -/
def resolveConfig (lib : Stdlib) (config : ClientConfig) :
    Except Error (String × Option Int × Option Int) :=
  if config.URL ≠ "" then
    match lib.urlParse config.URL with
    | .error e => .error e
    | .ok su =>
      let hostport := splitColon su.Host
      let host := hostport.headD ""
      let targetPort :=
        match config.Service with
        | some svc => svc.TargetPort
        | none => none
      match hostport with
      | _ :: seg :: _ =>
        match lib.atoi seg with
        | .ok i => .ok (host, some i, targetPort)
        | .error e => .error ("error converting port：" ++ e)
      | _ => .ok (host, none, targetPort)
  else
    match config.Service with
    | some svc => .ok (sprintfSvc svc.Name svc.Namespace, svc.Port, svc.TargetPort)
    | none => .ok ("localhost", none, none)

/-- The `NewClient` of `client.go`: the client and the allocation counter after it. -/
def NewClient (lib : Stdlib) (heap : Nat) (config : ClientConfig) :
    Except Error (AlertmanagerClient × Nat) :=
  match resolveConfig lib config with
  | .error e => .error e
  | .ok (host, port, targetPort) =>
    let port : Int := match port with
      | some p => p
      | none => 9093
    let targetPort : Int := match targetPort with
      | some t => t
      | none => port
    match lib.urlParse (sprintfURL "http" host port) with
    | .error e => .error e
    | .ok u =>
      let (am, heap) := NewAlertmanagerClient heap u
      .ok (⟨⟨"http", host, some port, some targetPort⟩, am, GoMap.empty⟩, heap)

/-! ## Status and peer discovery -/

/-- A function outcome: a value, a Go `error`, or a runtime panic (nil dereference). -/
inductive Outcome (α : Type) where
  | ok (a : α)
  | err (e : Error)
  | panic
deriving DecidableEq, Repr

/-- The `models.PeerStatus` of the wire format. -/
structure PeerStatus where
  Address : Option String
  Name : Option String
deriving DecidableEq, Repr

/-- The `models.ClusterStatus` of the wire format.  The elements of `Peers` are taken non-nil. -/
structure ClusterStatus where
  Name : String
  Peers : List PeerStatus
  Status : Option String
deriving DecidableEq, Repr

/-- The `AlertmanagerStatus` of `types.go` (a `models.AlertmanagerStatus`); of its fields only
`Cluster` is read. -/
structure AlertmanagerStatus where
  Cluster : Option ClusterStatus
deriving DecidableEq, Repr

/-- The `GetStatus` of `client.go`: the answer of the status call through the balancer, which
the environment supplies, passed on. -/
def GetStatus (wire : Except Error AlertmanagerStatus) : Except Error AlertmanagerStatus :=
  match wire with
  | .error e => .error e
  | .ok s => .ok s

/-- The loop of `peerHosts` (lines 200-204) with `phosts` as accumulator; `none` is the panic
of dereferencing an absent `Address`. -/
def peerHostsLoop : List PeerStatus → List String → Option (List String)
  | [], phosts => some phosts
  | ps :: rest, phosts =>
    match ps.Address with
    | none => none
    | some addr =>
      let phost := (splitColon addr).headD ""
      if phost ≠ "" then peerHostsLoop rest (phosts ++ [phost])
      else peerHostsLoop rest phosts

/-- The `peerHosts` of `client.go`; `none` is a panic. -/
def peerHosts (s : AlertmanagerStatus) : Option (List String) :=
  match s.Cluster with
  | none => some []
  | some cluster => peerHostsLoop cluster.Peers []

/-! ## getBackends -/

/-- How a loop is left: it ran to its end, returned an error, or panicked. -/
inductive Exit where
  | done
  | fail (e : Error)
  | panic
deriving DecidableEq, Repr

/-- The first loop of `getBackends` (lines 212-222) over the remaining hosts, on the
registry, the set `phmap` and the allocation counter. -/
def insertLoop (lib : Stdlib) (config : Config) :
    List String → GoMap Alertmanager → List String → Nat →
      Exit × GoMap Alertmanager × List String × Nat
  | [], backends, phmap, heap => (.done, backends, phmap, heap)
  | ph :: rest, backends, phmap, heap =>
    match config.targetPort with
    | none => (.panic, backends, phmap, heap)
    | some tp =>
      let u := sprintfURL config.scheme ph tp
      match backends.get u with
      | some _ => insertLoop lib config rest backends (u :: phmap) heap
      | none =>
        match lib.urlParse u with
        | .error e => (.fail e, backends, u :: phmap, heap)
        | .ok uu =>
          insertLoop lib config rest
            (backends.set u (NewAlertmanagerClient heap uu).1) (u :: phmap)
            (NewAlertmanagerClient heap uu).2

/-- The second loop of `getBackends` (lines 223-227): every key that is not in `phmap` is
deleted. -/
def evictLoop (phmap : List String) (backends : GoMap Alertmanager) : GoMap Alertmanager :=
  backends.keys.foldl (fun m u => if u ∈ phmap then m else m.delete u) backends

/-- The client with `c.backends` replaced. -/
def withBackends (c : AlertmanagerClient) (backends : GoMap Alertmanager) :
    AlertmanagerClient :=
  ⟨c.config, c.balancer, backends⟩

/-- What `getBackends` returns and leaves behind. -/
structure BackendsResult where
  ret : Outcome (List Alertmanager)
  client : AlertmanagerClient
  heap : Nat
deriving DecidableEq

/-- The `getBackends` of `client.go`.  `order` is the order in which the last loop
(lines 229-232) ranges over the map, which Go leaves unspecified. -/
def getBackends (lib : Stdlib) (order : List Alertmanager → List Alertmanager)
    (c : AlertmanagerClient) (heap : Nat) (peerHosts : List String) : BackendsResult :=
  match insertLoop lib c.config peerHosts c.backends [] heap with
  | (.fail e, backends, _, heap) => ⟨.err e, withBackends c backends, heap⟩
  | (.panic, backends, _, heap) => ⟨.panic, withBackends c backends, heap⟩
  | (.done, backends, phmap, heap) =>
    let backends := evictLoop phmap backends
    ⟨.ok (order backends.values), withBackends c backends, heap⟩

/-! ## PostAlerts -/

/-- A `strfmt.DateTime`, as an instant on an integer time line. -/
abbrev DateTime := Int

/-- A `models.LabelSet`. -/
abbrev LabelSet := List (String × String)

/-- The `RawAlert` of `types.go`. -/
structure RawAlert where
  Labels : LabelSet
  Annotations : LabelSet
  StartsAt : DateTime
  EndsAt : DateTime
deriving DecidableEq, Repr

/-- The fields of `models.PostableAlert` that `toPostAlertsParams` sets. -/
structure PostableAlert where
  Labels : LabelSet
  Annotations : LabelSet
  StartsAt : DateTime
  EndsAt : DateTime
deriving DecidableEq, Repr

/-- The `alert.PostAlertsParams` of the wire client (without its context). -/
structure PostAlertsParams where
  Alerts : List PostableAlert
deriving DecidableEq, Repr

/-- The `toPostAlertsParams` of `client.go`; the elements of `alerts` are taken non-nil. -/
def toPostAlertsParams (alerts : List RawAlert) : PostAlertsParams :=
  ⟨alerts.map (fun a => ⟨a.Labels, a.Annotations, a.StartsAt, a.EndsAt⟩)⟩

/-- An alert-post wire call: the connection it goes through and what it carries. -/
abbrev Call := Alertmanager × PostAlertsParams

/-- The answer of the environment to the `i`-th alert-post wire call of one `PostAlerts`:
`none` for success, `some e` for the error `e`. -/
abbrev PostOracle := Nat → Alertmanager → PostAlertsParams → Option Error

/-- The loop of `PostAlerts` (lines 117-122) from the `i`-th call on: what it returns and
the calls it issues. -/
def postLoop (post : PostOracle) (p : PostAlertsParams) :
    List Alertmanager → Nat → Outcome Unit × List Call
  | [], _ => (.ok (), [])
  | am :: rest, i =>
    match post i am p with
    | some e => (.err e, [(am, p)])
    | none => ((postLoop post p rest (i + 1)).1, (am, p) :: (postLoop post p rest (i + 1)).2)

/-- Lines 102-116 of `PostAlerts`: the connections `ams` to post to, with the client and the
allocation counter as the selection leaves them. -/
def selectAms (lib : Stdlib) (order : List Alertmanager → List Alertmanager)
    (status : Except Error AlertmanagerStatus) (c : AlertmanagerClient) (heap : Nat) :
    BackendsResult :=
  match GetStatus status with
  | .error e => ⟨.err e, c, heap⟩
  | .ok astatus =>
    match peerHosts astatus with
    | none => ⟨.panic, c, heap⟩
    | some hosts =>
      if hosts.length ≤ 1 then ⟨.ok [c.balancer], c, heap⟩
      else getBackends lib order c heap hosts

/-- What `PostAlerts` returns, leaves behind, and the alert-post wire calls it issued, in
order. -/
structure PostResult where
  ret : Outcome Unit
  client : AlertmanagerClient
  heap : Nat
  calls : List Call
deriving DecidableEq

/-- The `PostAlerts` of `client.go`.  `status` is the answer to the status call, `post` the
answers to the alert-post calls. -/
def PostAlerts (lib : Stdlib) (order : List Alertmanager → List Alertmanager)
    (status : Except Error AlertmanagerStatus) (post : PostOracle)
    (c : AlertmanagerClient) (heap : Nat) (alerts : List RawAlert) : PostResult :=
  let p := toPostAlertsParams alerts
  let sel := selectAms lib order status c heap
  match sel.ret with
  | .err e => ⟨.err e, sel.client, sel.heap, []⟩
  | .panic => ⟨.panic, sel.client, sel.heap, []⟩
  | .ok ams => ⟨(postLoop post p ams 0).1, sel.client, sel.heap, (postLoop post p ams 0).2⟩

/-! ## types.go -/

/-- The `Receiver` of `types.go`. -/
structure Receiver where
  Name : String
deriving DecidableEq, Repr

/-- The `AlertStatus` of `types.go`. -/
structure AlertStatus where
  InhibitedBy : List String
  SilencedBy : List String
  State : String
deriving DecidableEq, Repr

/-- The `Alert` of `types.go`; it embeds `RawAlert`. -/
structure Alert extends RawAlert where
  Fingerprint : String
  Receivers : List Receiver
  Status : Option AlertStatus
deriving DecidableEq, Repr

/-- The `AlertGroup` of `types.go`. -/
structure AlertGroup where
  Alerts : List Alert
  Labels : LabelSet
  Receiver : Option Receiver
deriving DecidableEq, Repr

/-- The `AlertsFilter` of `types.go`. -/
structure AlertsFilter where
  Active : Bool
  Inhibited : Bool
  Silenced : Bool
  Unprocessed : Bool
  Filter : List String
  Receiver : String
deriving DecidableEq, Repr

/-- The `NewAlertsFilter` of `types.go`. -/
def NewAlertsFilter : AlertsFilter :=
  ⟨true, true, true, true, [], ""⟩

/-- The `Matcher` of `types.go`. -/
structure Matcher where
  IsRegex : Bool
  Name : String
  Value : String
deriving DecidableEq, Repr

/-- The `RawSilence` of `types.go`. -/
structure RawSilence where
  ID : String
  StartsAt : DateTime
  EndsAt : DateTime
  Comment : String
  CreatedBy : String
  Matchers : List Matcher
deriving DecidableEq, Repr

/-- The `SilenceStatus` of `types.go`. -/
structure SilenceStatus where
  State : String
deriving DecidableEq, Repr

/-- The `Silence` of `types.go`; it embeds `RawSilence`. -/
structure Silence extends RawSilence where
  Status : Option SilenceStatus
  UpdatedAt : DateTime
deriving DecidableEq, Repr

/-! ## The wire format

The types of `github.com/prometheus/alertmanager/api/v2/models` that the decoders read and the
encoders build, with the fields they read or set. -/

namespace models

/-- The `models.Receiver` of the wire format. -/
structure Receiver where
  Name : Option String
deriving DecidableEq, Repr

/-- The `models.AlertStatus` of the wire format. -/
structure AlertStatus where
  InhibitedBy : List String
  SilencedBy : List String
  State : Option String
deriving DecidableEq, Repr

/-- The `models.GettableAlert` of the wire format.  The elements of `Receivers` are taken
non-nil. -/
structure GettableAlert where
  Labels : LabelSet
  Annotations : LabelSet
  StartsAt : Option DateTime
  EndsAt : Option DateTime
  Fingerprint : Option String
  Receivers : List Receiver
  Status : Option AlertStatus
deriving DecidableEq, Repr

/-- The `models.AlertGroup` of the wire format.  The elements of `Alerts` are taken
non-nil. -/
structure AlertGroup where
  Alerts : List GettableAlert
  Labels : LabelSet
  Receiver : Option Receiver
deriving DecidableEq, Repr

/-- The `models.Matcher` of the wire format. -/
structure Matcher where
  IsRegex : Option Bool
  Name : Option String
  Value : Option String
deriving DecidableEq, Repr

/-- The `models.Silence` of the wire format.  The elements of `Matchers` are taken non-nil. -/
structure Silence where
  Comment : Option String
  CreatedBy : Option String
  EndsAt : Option DateTime
  Matchers : List Matcher
  StartsAt : Option DateTime
deriving DecidableEq, Repr

/-- The `models.SilenceStatus` of the wire format. -/
structure SilenceStatus where
  State : Option String
deriving DecidableEq, Repr

/-- The `models.GettableSilence` of the wire format; it embeds `models.Silence`. -/
structure GettableSilence extends Silence where
  ID : Option String
  Status : Option SilenceStatus
  UpdatedAt : Option DateTime
deriving DecidableEq, Repr

/-- The `models.PostableSilence` of the wire format; it embeds `models.Silence`. -/
structure PostableSilence extends Silence where
  ID : String
deriving DecidableEq, Repr

end models

/-! ## Decoders -/

/-- Go `*p` on a pointer field: its value, or the panic of a nil dereference. -/
def deref {α : Type} : Option α → Outcome α
  | some a => .ok a
  | none => .panic

/-- Sequencing: what follows runs on the value, and a panic or an error ends the function. -/
def Outcome.bind {α β : Type} : Outcome α → (α → Outcome β) → Outcome β
  | .ok a, f => f a
  | .err e, _ => .err e
  | .panic, _ => .panic

/-- A `for ... range` loop that appends to its result one value per element, in order. -/
def decodeEach {α β : Type} (f : α → Outcome β) : List α → Outcome (List β)
  | [] => .ok []
  | a :: rest =>
    (f a).bind (fun b => (decodeEach f rest).bind (fun bs => .ok (b :: bs)))

/-- The body `&Receiver{Name: *r.Name}` of the receiver loops (lines 180-182, 241-243). -/
def fromReceiver (r : models.Receiver) : Outcome Receiver :=
  (deref r.Name).bind (fun name => .ok ⟨name⟩)

/-- The body of the loop of `fromGettableAlerts` (lines 239-262). -/
def fromGettableAlert (a : models.GettableAlert) : Outcome Alert :=
  (decodeEach fromReceiver a.Receivers).bind (fun rs =>
  (deref a.StartsAt).bind (fun startsAt =>
  (deref a.EndsAt).bind (fun endsAt =>
  (deref a.Fingerprint).bind (fun fingerprint =>
  (match a.Status with
    | none => (.ok none : Outcome (Option AlertStatus))
    | some st =>
      (deref st.State).bind (fun state => .ok (some ⟨st.InhibitedBy, st.SilencedBy, state⟩))
    ).bind (fun status =>
  .ok ⟨⟨a.Labels, a.Annotations, startsAt, endsAt⟩, fingerprint, rs, status⟩)))))

/-- The `fromGettableAlerts` of `client.go`. -/
def fromGettableAlerts (alerts : List models.GettableAlert) : Outcome (List Alert) :=
  decodeEach fromGettableAlert alerts

/-- The body of the loop of `fromAlertGroups` (lines 270-277). -/
def fromAlertGroup (ag : models.AlertGroup) : Outcome AlertGroup :=
  (fromGettableAlerts ag.Alerts).bind (fun alerts =>
  (match ag.Receiver with
    | none => (.ok none : Outcome (Option Receiver))
    | some r => (deref r.Name).bind (fun name => .ok (some ⟨name⟩))
    ).bind (fun receiver =>
  .ok ⟨alerts, ag.Labels, receiver⟩))

/-- The `fromAlertGroups` of `client.go`. -/
def fromAlertGroups (ags : List models.AlertGroup) : Outcome (List AlertGroup) :=
  decodeEach fromAlertGroup ags

/-- The body `&Matcher{IsRegex: *m.IsRegex, Name: *m.Name, Value: *m.Value}` of the loop of
`fromSilence` (lines 324-328). -/
def fromMatcher (m : models.Matcher) : Outcome Matcher :=
  (deref m.IsRegex).bind (fun isRegex =>
  (deref m.Name).bind (fun name =>
  (deref m.Value).bind (fun value => .ok ⟨isRegex, name, value⟩)))

/-- The `fromSilence` of `client.go`: `none` in, `none` out. -/
def fromSilence (gs : Option models.GettableSilence) : Outcome (Option Silence) :=
  match gs with
  | none => .ok none
  | some gs =>
    (decodeEach fromMatcher gs.Matchers).bind (fun ms =>
    (deref gs.ID).bind (fun id =>
    (deref gs.StartsAt).bind (fun startsAt =>
    (deref gs.EndsAt).bind (fun endsAt =>
    (deref gs.Comment).bind (fun comment =>
    (deref gs.CreatedBy).bind (fun createdBy =>
    (deref gs.Status).bind (fun status =>
    (deref status.State).bind (fun state =>
    (deref gs.UpdatedAt).bind (fun updatedAt =>
    .ok (some ⟨⟨id, startsAt, endsAt, comment, createdBy, ms⟩, some ⟨state⟩,
      updatedAt⟩))))))))))

/-! ## Encoders -/

/-- The `silence.PostSilencesParams` of the wire client (without its context). -/
structure PostSilencesParams where
  Silence : models.PostableSilence
deriving DecidableEq, Repr

/-- The `toPostSilenceParams` of `client.go`; the elements of `rsil.Matchers` are taken
non-nil. -/
def toPostSilenceParams (rsil : RawSilence) : PostSilencesParams :=
  ⟨⟨⟨some rsil.Comment, some rsil.CreatedBy, some rsil.EndsAt,
    rsil.Matchers.map (fun m => ⟨some m.IsRegex, some m.Name, some m.Value⟩),
    some rsil.StartsAt⟩, rsil.ID⟩⟩

namespace alert

/-- The `alert.GetAlertsParams` of the wire client (without its context, client and
timeout). -/
structure GetAlertsParams where
  Active : Option Bool
  Filter : List String
  Inhibited : Option Bool
  Receiver : Option String
  Silenced : Option Bool
  Unprocessed : Option Bool
deriving DecidableEq, Repr

/-- Go `alert.NewGetAlertsParams()`: the four flags default to true. -/
def NewGetAlertsParams : GetAlertsParams :=
  ⟨some true, [], some true, none, some true, some true⟩

/-- Go `(*GetAlertsParams).WithActive`. -/
def GetAlertsParams.WithActive (o : GetAlertsParams) (active : Option Bool) :
    GetAlertsParams := ⟨active, o.Filter, o.Inhibited, o.Receiver, o.Silenced, o.Unprocessed⟩

/-- Go `(*GetAlertsParams).WithInhibited`. -/
def GetAlertsParams.WithInhibited (o : GetAlertsParams) (inhibited : Option Bool) :
    GetAlertsParams := ⟨o.Active, o.Filter, inhibited, o.Receiver, o.Silenced, o.Unprocessed⟩

/-- Go `(*GetAlertsParams).WithSilenced`. -/
def GetAlertsParams.WithSilenced (o : GetAlertsParams) (silenced : Option Bool) :
    GetAlertsParams := ⟨o.Active, o.Filter, o.Inhibited, o.Receiver, silenced, o.Unprocessed⟩

/-- Go `(*GetAlertsParams).WithUnprocessed`. -/
def GetAlertsParams.WithUnprocessed (o : GetAlertsParams) (unprocessed : Option Bool) :
    GetAlertsParams := ⟨o.Active, o.Filter, o.Inhibited, o.Receiver, o.Silenced, unprocessed⟩

/-- Go `(*GetAlertsParams).WithFilter`. -/
def GetAlertsParams.WithFilter (o : GetAlertsParams) (filter : List String) :
    GetAlertsParams := ⟨o.Active, filter, o.Inhibited, o.Receiver, o.Silenced, o.Unprocessed⟩

/-- Go `(*GetAlertsParams).WithReceiver`. -/
def GetAlertsParams.WithReceiver (o : GetAlertsParams) (receiver : Option String) :
    GetAlertsParams := ⟨o.Active, o.Filter, o.Inhibited, receiver, o.Silenced, o.Unprocessed⟩

end alert

namespace alertgroup

/-- The `alertgroup.GetAlertGroupsParams` of the wire client (without its context, client and
timeout); it has no field for the unprocessed flag. -/
structure GetAlertGroupsParams where
  Active : Option Bool
  Filter : List String
  Inhibited : Option Bool
  Receiver : Option String
  Silenced : Option Bool
deriving DecidableEq, Repr

/-- Go `alertgroup.NewGetAlertGroupsParams()`: the three flags default to true. -/
def NewGetAlertGroupsParams : GetAlertGroupsParams :=
  ⟨some true, [], some true, none, some true⟩

/-- Go `(*GetAlertGroupsParams).WithActive`. -/
def GetAlertGroupsParams.WithActive (o : GetAlertGroupsParams) (active : Option Bool) :
    GetAlertGroupsParams := ⟨active, o.Filter, o.Inhibited, o.Receiver, o.Silenced⟩

/-- Go `(*GetAlertGroupsParams).WithInhibited`. -/
def GetAlertGroupsParams.WithInhibited (o : GetAlertGroupsParams) (inhibited : Option Bool) :
    GetAlertGroupsParams := ⟨o.Active, o.Filter, inhibited, o.Receiver, o.Silenced⟩

/-- Go `(*GetAlertGroupsParams).WithSilenced`. -/
def GetAlertGroupsParams.WithSilenced (o : GetAlertGroupsParams) (silenced : Option Bool) :
    GetAlertGroupsParams := ⟨o.Active, o.Filter, o.Inhibited, o.Receiver, silenced⟩

/-- Go `(*GetAlertGroupsParams).WithFilter`. -/
def GetAlertGroupsParams.WithFilter (o : GetAlertGroupsParams) (filter : List String) :
    GetAlertGroupsParams := ⟨o.Active, filter, o.Inhibited, o.Receiver, o.Silenced⟩

/-- Go `(*GetAlertGroupsParams).WithReceiver`. -/
def GetAlertGroupsParams.WithReceiver (o : GetAlertGroupsParams) (receiver : Option String) :
    GetAlertGroupsParams := ⟨o.Active, o.Filter, o.Inhibited, receiver, o.Silenced⟩

end alertgroup

/-- The `toGetAlertsParams` of `client.go` (without the context); `af` is taken non-nil. -/
def toGetAlertsParams (af : AlertsFilter) : alert.GetAlertsParams :=
  (((((alert.NewGetAlertsParams.WithActive (some af.Active)).WithInhibited
    (some af.Inhibited)).WithSilenced (some af.Silenced)).WithUnprocessed
    (some af.Unprocessed)).WithFilter af.Filter).WithReceiver (some af.Receiver)

/-- The `toGetAlertGroupsParams` of `client.go` (without the context); `af` is taken
non-nil. -/
def toGetAlertGroupsParams (af : AlertsFilter) : alertgroup.GetAlertGroupsParams :=
  ((((alertgroup.NewGetAlertGroupsParams.WithActive (some af.Active)).WithInhibited
    (some af.Inhibited)).WithSilenced (some af.Silenced)).WithFilter af.Filter).WithReceiver
    (some af.Receiver)

/-! ## Notions the statements use -/

/-- The part of `s` before its first colon; all of `s` when it has no colon. -/
def beforeFirstColon (s : String) : String :=
  String.mk (s.data.takeWhile (fun c => c ≠ ':'))

/-- The part of `s` before its last colon; all of `s` when it has no colon. -/
def beforeLastColon (s : String) : String :=
  if ':' ∈ s.data then String.mk ((s.data.reverse.dropWhile (fun c => c ≠ ':')).tail.reverse)
  else s

/-- The text between the first colon of `s` and its next colon (or its end); `none` when `s`
has no colon. -/
def afterFirstColon (s : String) : Option String :=
  if ':' ∈ s.data then
    some (String.mk ((s.data.dropWhile (fun c => c ≠ ':')).tail.takeWhile (fun c => c ≠ ':')))
  else none

/-- The target-port a configuration's service reference carries, if any. -/
def serviceTargetPort (config : ClientConfig) : Option Int :=
  match config.Service with
  | some svc => svc.TargetPort
  | none => none

/-- The connection URL of a peer host for a client: `scheme://host:targetPort`. -/
def IsPeerURL (c : AlertmanagerClient) (hosts : List String) (u : String) : Prop :=
  ∃ ph ∈ hosts, ∃ tp, c.config.targetPort = some tp ∧ u = sprintfURL c.config.scheme ph tp

/-- Every field `fromGettableAlerts` dereferences in the alert is present: the name of each
receiver, `StartsAt`, `EndsAt`, `Fingerprint`, and the `State` of a `Status` that is present
(an absent `Status` is not dereferenced). -/
def alertPresent (a : models.GettableAlert) : Bool :=
  a.Receivers.all (fun r => r.Name.isSome) && a.StartsAt.isSome && a.EndsAt.isSome &&
    a.Fingerprint.isSome &&
    (match a.Status with
      | none => true
      | some st => st.State.isSome)

/-- Every field `fromAlertGroups` dereferences in the group is present: those of its alerts,
and the `Name` of a `Receiver` that is present (an absent `Receiver` is not dereferenced). -/
def groupPresent (ag : models.AlertGroup) : Bool :=
  ag.Alerts.all alertPresent &&
    (match ag.Receiver with
      | none => true
      | some r => r.Name.isSome)

/-- Every field `fromSilence` dereferences in the matcher is present. -/
def matcherPresent (m : models.Matcher) : Bool :=
  m.IsRegex.isSome && m.Name.isSome && m.Value.isSome

/-- Every field `fromSilence` dereferences in the silence is present: those of its matchers,
`ID`, `StartsAt`, `EndsAt`, `Comment`, `CreatedBy`, `Status`, its `State`, and `UpdatedAt`. -/
def silencePresent (gs : models.GettableSilence) : Bool :=
  gs.Matchers.all matcherPresent && gs.ID.isSome && gs.StartsAt.isSome && gs.EndsAt.isSome &&
    gs.Comment.isSome && gs.CreatedBy.isSome &&
    (match gs.Status with
      | none => false
      | some st => st.State.isSome) &&
    gs.UpdatedAt.isSome

/-! ## Reference behaviour of the library functions

`goAtoi` and `goUrlParse` give the values of `strconv.Atoi` and `url.Parse` on the inputs the
closed examples of this file evaluate: decimal integers, and URLs of the shape
`scheme://authority` or `scheme://authority/path` whose authority is a bracketed IPv6 literal or
a (possibly empty) name over letters, digits, `-`, `.`, `_`, optionally followed by `:port`,
and has no user information, escape, query or fragment; and URLs of that shape whose authority
has a space, which `url.Parse` rejects.  On other inputs `goUrlParse` answers with an error,
which need not be what `url.Parse` does there. -/

/-- Value of a string of decimal digits, `none` when a character is not a digit. -/
def digitsValue : List Char → Nat → Option Nat
  | [], acc => some acc
  | c :: cs, acc =>
    if c.isDigit then digitsValue cs (acc * 10 + (c.toNat - '0'.toNat)) else none

/-- Go `strconv.Atoi` on a 64-bit platform: an optional sign, then one or more decimal
digits, the value within the range of `int`. -/
def goAtoi (s : String) : Except Error Int :=
  let syntaxErr : Except Error Int :=
    .error ("strconv.Atoi: parsing \"" ++ s ++ "\": invalid syntax")
  let rangeErr : Except Error Int :=
    .error ("strconv.Atoi: parsing \"" ++ s ++ "\": value out of range")
  let (neg, ds) : Bool × List Char :=
    match s.data with
    | '-' :: ds => (true, ds)
    | '+' :: ds => (false, ds)
    | ds => (false, ds)
  if ds = [] then syntaxErr
  else
    match digitsValue ds 0 with
    | none => syntaxErr
    | some n =>
      if neg then (if n ≤ 2 ^ 63 then .ok (-(n : Int)) else rangeErr)
      else (if n < 2 ^ 63 then .ok (n : Int) else rangeErr)

/-- Go `validOptionalPort` of `net/url`: empty, or a colon followed by digits only. -/
def validOptionalPort : List Char → Bool
  | [] => true
  | c :: cs => c = ':' && cs.all Char.isDigit

/-- The text from the last colon on (Go `host[strings.LastIndex(host, ":"):]`), `none` when
there is no colon. -/
def fromLastColon : List Char → Option (List Char)
  | [] => none
  | c :: cs =>
    match fromLastColon cs with
    | some r => some r
    | none => if c = ':' then some (c :: cs) else none

/-- The text after the last `]` (Go `host[strings.LastIndex(host, "]")+1:]`), `none` when
there is no `]`. -/
def afterLastBracket : List Char → Option (List Char)
  | [] => none
  | c :: cs =>
    match afterLastBracket cs with
    | some r => some r
    | none => if c = ']' then some cs else none

/-- Go `parseHost` of `net/url` on the authorities described above: whether the host is
accepted. -/
def hostAccepted (host : List Char) : Bool :=
  match host with
  | '[' :: _ =>
    match afterLastBracket host with
    | none => false
    | some colonPort =>
      validOptionalPort colonPort &&
        host.all (fun c => c.isAlphanum || c = ':' || c = '.' || c = '[' || c = ']')
  | _ =>
    (match fromLastColon host with
      | none => true
      | some colonPort => validOptionalPort colonPort) &&
      host.all (fun c => c.isAlphanum || c = '-' || c = '.' || c = '_' || c = ':')

/-- Splits `scheme://rest` into `scheme` and `rest`; `none` when the string does not start
with a scheme followed by `://`. -/
def splitScheme (s : List Char) : Option (List Char × List Char) :=
  let scheme := s.takeWhile Char.isAlpha
  match s.dropWhile Char.isAlpha with
  | ':' :: '/' :: '/' :: rest => if scheme = [] then none else some (scheme, rest)
  | _ => none

/-- Go `url.Parse` on the URLs described above. -/
def goUrlParse (s : String) : Except Error URL :=
  match splitScheme s.data with
  | none => .error ("parse \"" ++ s ++ "\": not an absolute URL with an authority")
  | some (scheme, rest) =>
    let authority := rest.takeWhile (fun c => c ≠ '/')
    let path := rest.dropWhile (fun c => c ≠ '/')
    if hostAccepted authority then
      .ok ⟨String.mk (scheme.map Char.toLower), String.mk authority, String.mk path⟩
    else if ' ' ∈ authority then
      .error ("parse \"" ++ s ++ "\": invalid character \" \" in host name")
    else
      .error ("parse \"" ++ s ++ "\": invalid host \"" ++ String.mk authority ++ "\"")

/-- The reference library environment. -/
def goStdlib : Stdlib := ⟨goUrlParse, goAtoi⟩

/-! ## Sample values -/

/-- A cluster status with two peers on two hosts. -/
def statusTwoPeers : AlertmanagerStatus :=
  ⟨some ⟨"am", [⟨some "10.0.0.2:9094", some "a"⟩, ⟨some "10.0.0.3:9094", some "b"⟩],
    some "ready"⟩⟩

/-- A cluster status with two peers on one host. -/
def statusSameHost : AlertmanagerStatus :=
  ⟨some ⟨"am", [⟨some "10.0.0.2:9094", some "a"⟩, ⟨some "10.0.0.2:9095", some "b"⟩],
    some "ready"⟩⟩

/-- A cluster status with one peer on an IPv6 address. -/
def statusIPv6 : AlertmanagerStatus :=
  ⟨some ⟨"am", [⟨some "[fd00::2]:9094", some "a"⟩], some "ready"⟩⟩

/-- The configuration of `_example/main.go`. -/
def exampleConfig : ClientConfig :=
  ⟨"", some ⟨"monitoring", "alertmanager", none, none⟩⟩

/-- The client `NewClient` builds from `exampleConfig` at allocation counter 0. -/
def exampleClient : AlertmanagerClient :=
  ⟨⟨"http", "alertmanager.monitoring.svc", some 9093, some 9093⟩,
    ⟨0, ⟨"http", "alertmanager.monitoring.svc:9093", ""⟩⟩, GoMap.empty⟩

/-- The registry of `exampleClient` after a reconciliation with the peers `10.0.0.2` and
`10.0.0.3` at allocation counter 1. -/
def exampleHandles : List Alertmanager :=
  [⟨1, ⟨"http", "10.0.0.2:9093", ""⟩⟩, ⟨2, ⟨"http", "10.0.0.3:9093", ""⟩⟩]

/-- The client `exampleClient` after a reconciliation with the peers `10.0.0.2` and
`10.0.0.3` at allocation counter 1. -/
def reconciledClient : AlertmanagerClient :=
  ⟨exampleClient.config, exampleClient.balancer,
    ⟨[("http://10.0.0.2:9093", ⟨1, ⟨"http", "10.0.0.2:9093", ""⟩⟩),
      ("http://10.0.0.3:9093", ⟨2, ⟨"http", "10.0.0.3:9093", ""⟩⟩)], by decide⟩⟩

/-- An environment in which every alert-post call succeeds. -/
def postAlwaysOk : PostOracle := fun _ _ _ => none

/-- An environment in which the second alert-post call fails and the others succeed. -/
def postSecondFails : PostOracle :=
  fun i _ _ => if i = 1 then some "connection refused" else none

/-- A configuration with a URL and a service reference that gives a port and no
target-port. -/
def configURLServicePort : ClientConfig :=
  ⟨"http://localhost:9093", some ⟨"monitoring", "alertmanager", some 8080, none⟩⟩

/-- The silence `_example/main.go` posts, with a start at 0 and an end at 60. -/
def exampleSilence : RawSilence :=
  ⟨"", 0, 60, "", "test", [⟨false, "alertname", "test"⟩]⟩

/-- A cluster status with one peer. -/
def statusOnePeer : AlertmanagerStatus :=
  ⟨some ⟨"am", [⟨some "10.0.0.2:9094", some "a"⟩], some "ready"⟩⟩

/-- A wire alert with every field present. -/
def wireAlert : models.GettableAlert :=
  ⟨[("alertname", "test")], [], some 0, some 60, some "f1", [⟨some "default"⟩],
    some ⟨[], [], some "active"⟩⟩

/-- A wire alert whose status has no state. -/
def wireAlertNoState : models.GettableAlert :=
  ⟨[("alertname", "test")], [], some 0, some 60, some "f1", [⟨some "default"⟩],
    some ⟨[], [], none⟩⟩

/-- A wire silence with every field present but its status. -/
def wireSilenceNoStatus : models.GettableSilence :=
  ⟨⟨some "", some "test", some 60, [⟨some false, some "alertname", some "test"⟩], some 0⟩,
    some "id-1", none, some 1⟩

/-! ## Strings: lemmas -/

theorem splitChars_eq (sep : Char) (l : List Char) :
    splitChars sep l = l.takeWhile (fun c => c ≠ sep) ::
      (match l.dropWhile (fun c => c ≠ sep) with
        | [] => []
        | _ :: t => splitChars sep t) := by
  induction l with
  | nil => simp [splitChars]
  | cons c cs ih =>
    by_cases hc : c = sep
    · subst hc
      simp [splitChars]
    · rw [splitChars, if_neg hc, ih]
      simp [hc]

theorem splitColon_headD (s : String) : (splitColon s).headD "" = beforeFirstColon s := by
  unfold splitColon beforeFirstColon
  rw [splitChars_eq]
  simp

theorem dropWhile_ne_eq_nil_iff (sep : Char) (l : List Char) :
    l.dropWhile (fun c => c ≠ sep) = [] ↔ sep ∉ l := by
  induction l with
  | nil => simp
  | cons c cs ih =>
    by_cases hc : c = sep
    · subst hc; simp
    · have hc' : ¬ sep = c := fun h => hc h.symm
      simp only [List.dropWhile_cons, ne_eq, hc, not_false_eq_true, decide_True, if_true,
        List.mem_cons, hc', false_or]
      exact ih

theorem dropWhile_ne_head (sep : Char) (l : List Char) (c : Char) (t : List Char)
    (h : l.dropWhile (fun c => c ≠ sep) = c :: t) : c = sep := by
  induction l with
  | nil => simp at h
  | cons d ds ih =>
    by_cases hd : d = sep
    · subst hd
      simp [List.dropWhile_cons] at h
      exact h.1.symm
    · simp only [List.dropWhile_cons, ne_eq, hd, not_false_eq_true, decide_True, if_true] at h
      exact ih h

theorem splitColon_get_one (s : String) : (splitColon s)[1]? = afterFirstColon s := by
  unfold splitColon afterFirstColon
  rw [splitChars_eq]
  by_cases hmem : ':' ∈ s.data
  · rw [if_pos hmem]
    have hne : s.data.dropWhile (fun c => c ≠ ':') ≠ [] := by
      rw [Ne, dropWhile_ne_eq_nil_iff]; exact fun h => h hmem
    cases hd : s.data.dropWhile (fun c => c ≠ ':') with
    | nil => exact absurd hd hne
    | cons d t =>
      simp only [List.tail_cons]
      rw [splitChars_eq]
      simp
  · rw [if_neg hmem]
    have hnil : s.data.dropWhile (fun c => c ≠ ':') = [] :=
      (dropWhile_ne_eq_nil_iff ':' s.data).2 hmem
    rw [hnil]
    simp

theorem splitColon_cases (s : String) :
    (splitColon s = [beforeFirstColon s] ∧ afterFirstColon s = none) ∨
    (∃ seg rest, splitColon s = beforeFirstColon s :: seg :: rest ∧
      afterFirstColon s = some seg) := by
  have h0 := splitColon_headD s
  have h1 := splitColon_get_one s
  cases hs : splitColon s with
  | nil =>
    have : splitColon s ≠ [] := by
      unfold splitColon; rw [splitChars_eq]; simp
    exact absurd hs this
  | cons a t =>
    rw [hs] at h0 h1
    simp only [List.headD_cons] at h0
    cases t with
    | nil =>
      left
      have h1' : afterFirstColon s = none := by rw [← h1]; rfl
      exact ⟨by rw [h0], h1'⟩
    | cons b t' =>
      right
      simp only [List.getElem?_cons_succ, List.getElem?_cons_zero] at h1
      exact ⟨b, t', by rw [h0], h1.symm⟩

theorem takeWhile_append_sep (sep : Char) (a b : List Char) (ha : sep ∉ a) :
    (a ++ sep :: b).takeWhile (fun c => c ≠ sep) = a := by
  induction a with
  | nil => simp
  | cons c cs ih =>
    have hc : c ≠ sep := fun h => ha (by simp [h])
    have hcs : sep ∉ cs := fun h => ha (by simp [h])
    rw [List.cons_append, List.takeWhile_cons]
    simp only [ne_eq, hc, not_false_eq_true, decide_True, if_true]
    rw [ih hcs]

theorem dropWhile_append_sep (sep : Char) (a b : List Char) (ha : sep ∉ a) :
    (a ++ sep :: b).dropWhile (fun c => c ≠ sep) = sep :: b := by
  induction a with
  | nil => simp
  | cons c cs ih =>
    have hc : c ≠ sep := fun h => ha (by simp [h])
    have hcs : sep ∉ cs := fun h => ha (by simp [h])
    rw [List.cons_append, List.dropWhile_cons]
    simp only [ne_eq, hc, not_false_eq_true, decide_True, if_true]
    exact ih hcs

theorem takeWhile_of_not_mem (sep : Char) (a : List Char) (ha : sep ∉ a) :
    a.takeWhile (fun c => c ≠ sep) = a := by
  induction a with
  | nil => simp
  | cons c cs ih =>
    have hc : c ≠ sep := fun h => ha (by simp [h])
    have hcs : sep ∉ cs := fun h => ha (by simp [h])
    rw [List.takeWhile_cons]
    simp only [ne_eq, hc, not_false_eq_true, decide_True, if_true]
    rw [ih hcs]

theorem beforeFirstColon_append (host port : String) (h : ':' ∉ host.data) :
    beforeFirstColon (host ++ ":" ++ port) = host := by
  unfold beforeFirstColon
  have hd : (host ++ ":" ++ port).data = host.data ++ ':' :: port.data := by
    simp [String.data_append]
  rw [hd, takeWhile_append_sep ':' _ _ h]

theorem afterFirstColon_append (host seg : String) (h : ':' ∉ host.data)
    (hseg : ':' ∉ seg.data) : afterFirstColon (host ++ ":" ++ seg) = some seg := by
  unfold afterFirstColon
  have hd : (host ++ ":" ++ seg).data = host.data ++ ':' :: seg.data := by
    simp [String.data_append]
  rw [hd, dropWhile_append_sep ':' _ _ h, List.tail_cons, takeWhile_of_not_mem ':' _ hseg]
  simp

theorem sprintfSvc_ne_empty (nm ns : String) : sprintfSvc nm ns ≠ "" := by
  intro h
  have := congrArg String.length h
  simp only [sprintfSvc, String.length_append] at this
  have h4 : (".svc" : String).length = 4 := by decide
  have h0 : ("" : String).length = 0 := by decide
  omega

/-! ## NewClient: lemmas -/

theorem resolveConfig_url (lib : Stdlib) (cfg : ClientConfig) (su : URL)
    (hne : cfg.URL ≠ "") (hparse : lib.urlParse cfg.URL = .ok su) :
    resolveConfig lib cfg =
      (match afterFirstColon su.Host with
        | none => .ok (beforeFirstColon su.Host, none, serviceTargetPort cfg)
        | some seg =>
          match lib.atoi seg with
          | .ok i => .ok (beforeFirstColon su.Host, some i, serviceTargetPort cfg)
          | .error e => .error ("error converting port：" ++ e)) := by
  unfold resolveConfig
  rw [if_pos hne, hparse]
  simp only
  rcases splitColon_cases su.Host with ⟨hs, ha⟩ | ⟨seg, rest, hs, ha⟩
  · rw [hs, ha]; rfl
  · rw [hs, ha]
    simp only [List.headD_cons]
    cases lib.atoi seg <;> rfl

theorem NewClient_eq (lib : Stdlib) (heap : Nat) (cfg : ClientConfig) :
    NewClient lib heap cfg =
      (match resolveConfig lib cfg with
        | .error e => .error e
        | .ok (host, port, targetPort) =>
          match lib.urlParse (sprintfURL "http" host (port.getD 9093)) with
          | .error e => .error e
          | .ok u =>
            .ok (⟨⟨"http", host, some (port.getD 9093),
              some (targetPort.getD (port.getD 9093))⟩, ⟨heap, u⟩, GoMap.empty⟩, heap + 1)) := by
  unfold NewClient
  cases hr : resolveConfig lib cfg with
  | error e => rfl
  | ok r =>
    obtain ⟨host, port, targetPort⟩ := r
    cases port <;> cases targetPort <;> rfl

/-! ## Client construction -/

/-- C7: for a configuration with an empty URL and a service reference (namespace `ns`, name
`nm`, optional port `p`, optional target-port `t`) for which `NewClient` succeeds, the
resolved scheme is `http`, the host is `nm.ns.svc`, the port is `p` or else 9093, and the
target-port is `t` or else the resolved port. -/
theorem NewClient_service_reference (lib : Stdlib) (heap : Nat) (ns nm : String)
    (p t : Option Int) (c : AlertmanagerClient) (heap' : Nat)
    (h : NewClient lib heap ⟨"", some ⟨ns, nm, p, t⟩⟩ = .ok (c, heap')) :
    c.config.scheme = "http" ∧ c.config.host = nm ++ "." ++ ns ++ ".svc" ∧
      c.config.port = some (p.getD 9093) ∧
      c.config.targetPort = some (t.getD (p.getD 9093)) := by
  rw [NewClient_eq] at h
  have hr : resolveConfig lib ⟨"", some ⟨ns, nm, p, t⟩⟩ = .ok (sprintfSvc nm ns, p, t) := by
    simp [resolveConfig]
  rw [hr] at h
  simp only at h
  cases hu : lib.urlParse (sprintfURL "http" (sprintfSvc nm ns) (p.getD 9093)) with
  | error e => rw [hu] at h; cases h
  | ok u =>
    rw [hu] at h
    simp only [Except.ok.injEq, Prod.mk.injEq] at h
    obtain ⟨hc, _⟩ := h
    subst hc
    exact ⟨rfl, rfl, rfl, rfl⟩

/-- C7, on the configuration of `_example/main.go`: it resolves to host
`alertmanager.monitoring.svc`, port 9093 and target-port 9093. -/
theorem NewClient_service_reference_witness :
    NewClient goStdlib 0 exampleConfig = .ok (exampleClient, 1) ∧
      exampleClient.config.host = "alertmanager.monitoring.svc" ∧
      exampleClient.config.port = some 9093 ∧ exampleClient.config.targetPort = some 9093 :=
  ⟨by decide,
    (NewClient_service_reference goStdlib 0 "monitoring" "alertmanager" none none
      exampleClient 1 (by decide)).2.1,
    (NewClient_service_reference goStdlib 0 "monitoring" "alertmanager" none none
      exampleClient 1 (by decide)).2.2.1,
    (NewClient_service_reference goStdlib 0 "monitoring" "alertmanager" none none
      exampleClient 1 (by decide)).2.2.2⟩

/-- C8, as stated, fails: the URL `http://[::1]:9093` supplies the host `[::1]` and the port
9093, and `NewClient` returns an error, because it cuts the authority at every colon. -/
theorem NewClient_url_ipv6_counterexample :
    goUrlParse "http://[::1]:9093" = .ok ⟨"http", "[::1]:9093", ""⟩ ∧
      splitColon "[::1]:9093" = ["[", "", "1]", "9093"] ∧
      NewClient goStdlib 0 ⟨"http://[::1]:9093", none⟩ =
        .error "error converting port：strconv.Atoi: parsing \"\": invalid syntax" := by
  decide

/-- C8 (amended): for a configuration whose URL parses to the authority `h:seg` with no colon
in `h` or `seg`, where `strconv.Atoi` reads `seg` as `p`, `NewClient` fails exactly when
`url.Parse` rejects `http://h:p`, and otherwise resolves (scheme, host, port, target-port) to
(`http`, `h`, `p`, `t`) when a service reference with target-port `t` is present and to
(`http`, `h`, `p`, `p`) when none is; two configurations with the same URL and the same
service target-port resolve alike. -/
theorem NewClient_url (lib : Stdlib) (heap : Nat) (cfg : ClientConfig) (su : URL)
    (h seg : String) (p : Int) (hne : cfg.URL ≠ "")
    (hparse : lib.urlParse cfg.URL = .ok su) (hhost : su.Host = h ++ ":" ++ seg)
    (hh : ':' ∉ h.data) (hseg : ':' ∉ seg.data) (hatoi : lib.atoi seg = .ok p) :
    NewClient lib heap cfg =
        (match lib.urlParse (sprintfURL "http" h p) with
          | .error e => .error e
          | .ok u =>
            .ok (⟨⟨"http", h, some p, some ((serviceTargetPort cfg).getD p)⟩, ⟨heap, u⟩,
              GoMap.empty⟩, heap + 1)) ∧
      (∀ cfg' : ClientConfig, cfg'.URL = cfg.URL →
        serviceTargetPort cfg' = serviceTargetPort cfg →
        NewClient lib heap cfg' = NewClient lib heap cfg) := by
  have key : ∀ cfg' : ClientConfig, cfg'.URL = cfg.URL →
      NewClient lib heap cfg' =
        (match lib.urlParse (sprintfURL "http" h p) with
          | .error e => .error e
          | .ok u =>
            .ok (⟨⟨"http", h, some p, some ((serviceTargetPort cfg').getD p)⟩, ⟨heap, u⟩,
              GoMap.empty⟩, heap + 1)) := by
    intro cfg' hurl
    rw [NewClient_eq, resolveConfig_url lib cfg' su (by rw [hurl]; exact hne)
      (by rw [hurl]; exact hparse), hhost, afterFirstColon_append h seg hh hseg,
      beforeFirstColon_append h seg hh]
    simp only [hatoi, Option.getD_some]
  refine ⟨key cfg rfl, ?_⟩
  intro cfg' hurl htp
  rw [key cfg' hurl, key cfg rfl, htp]

/-- C8 (amended), on `http://localhost:9093` with a service reference whose target-port is
9094: the tuple is (`http`, `localhost`, 9093, 9094). -/
theorem NewClient_url_witness :
    NewClient goStdlib 0 ⟨"http://localhost:9093", some ⟨"ns", "nm", some 1, some 9094⟩⟩ =
      .ok (⟨⟨"http", "localhost", some 9093, some 9094⟩,
        ⟨0, ⟨"http", "localhost:9093", ""⟩⟩, GoMap.empty⟩, 1) :=
  (NewClient_url goStdlib 0 ⟨"http://localhost:9093", some ⟨"ns", "nm", some 1, some 9094⟩⟩
    ⟨"http", "localhost:9093", ""⟩ "localhost" "9093" 9093 (by decide) (by decide)
    (by decide) (by decide) (by decide) (by decide)).1.trans (by decide)

/-- C9, as stated, fails: for the URL `http://:9093` `NewClient` returns a client whose
resolved host is the empty string. -/
theorem NewClient_empty_host_counterexample :
    NewClient goStdlib 0 ⟨"http://:9093", none⟩ =
        .ok (⟨⟨"http", "", some 9093, some 9093⟩, ⟨0, ⟨"http", ":9093", ""⟩⟩,
          GoMap.empty⟩, 1) ∧
      (⟨"http", "", some 9093, some 9093⟩ : Config).host = "" := by
  decide

/-- C9 (amended): for a configuration for which `NewClient` returns a client, the resolved
port and target-port are set; the resolved host is non-empty when the configuration has no
URL (a service reference, or nothing), and with a URL it is the part of the parsed authority
before its first colon. -/
theorem NewClient_resolution_total (lib : Stdlib) (heap : Nat) (cfg : ClientConfig)
    (c : AlertmanagerClient) (heap' : Nat) (h : NewClient lib heap cfg = .ok (c, heap')) :
    c.config.port ≠ none ∧ c.config.targetPort ≠ none ∧
      (cfg.URL = "" → c.config.host ≠ "") ∧
      (cfg.URL ≠ "" →
        ∃ su, lib.urlParse cfg.URL = .ok su ∧ c.config.host = beforeFirstColon su.Host) := by
  rw [NewClient_eq] at h
  cases hr : resolveConfig lib cfg with
  | error e => rw [hr] at h; cases h
  | ok r =>
    obtain ⟨host, port, targetPort⟩ := r
    rw [hr] at h
    simp only at h
    cases hu : lib.urlParse (sprintfURL "http" host (port.getD 9093)) with
    | error e => rw [hu] at h; cases h
    | ok u =>
      rw [hu] at h
      simp only [Except.ok.injEq, Prod.mk.injEq] at h
      obtain ⟨hc, _⟩ := h
      subst hc
      refine ⟨by simp, by simp, ?_, ?_⟩
      · intro hurl
        simp only
        unfold resolveConfig at hr
        rw [if_neg (by simpa using hurl)] at hr
        cases hsvc : cfg.Service with
        | none =>
          rw [hsvc] at hr
          simp only [Except.ok.injEq, Prod.mk.injEq] at hr
          rw [← hr.1]; decide
        | some svc =>
          rw [hsvc] at hr
          simp only [Except.ok.injEq, Prod.mk.injEq] at hr
          rw [← hr.1]; exact sprintfSvc_ne_empty _ _
      · intro hurl
        cases hp : lib.urlParse cfg.URL with
        | error e =>
          unfold resolveConfig at hr
          rw [if_pos hurl, hp] at hr
          cases hr
        | ok su =>
          refine ⟨su, rfl, ?_⟩
          rw [resolveConfig_url lib cfg su hurl hp] at hr
          simp only
          cases ha : afterFirstColon su.Host with
          | none =>
            rw [ha] at hr
            simp only [Except.ok.injEq, Prod.mk.injEq] at hr
            exact hr.1.symm
          | some seg =>
            rw [ha] at hr
            simp only at hr
            cases hi : lib.atoi seg with
            | error e => rw [hi] at hr; cases hr
            | ok i =>
              rw [hi] at hr
              simp only [Except.ok.injEq, Prod.mk.injEq] at hr
              exact hr.1.symm

/-- C9 (amended), on the empty configuration: host `localhost`, port and target-port 9093. -/
theorem NewClient_resolution_total_witness :
    NewClient goStdlib 0 ⟨"", none⟩ =
        .ok (⟨⟨"http", "localhost", some 9093, some 9093⟩,
          ⟨0, ⟨"http", "localhost:9093", ""⟩⟩, GoMap.empty⟩, 1) ∧
      (some 9093 : Option Int) ≠ none ∧ ("localhost" : String) ≠ "" :=
  ⟨by decide,
    (NewClient_resolution_total goStdlib 0 ⟨"", none⟩
      ⟨⟨"http", "localhost", some 9093, some 9093⟩,
        ⟨0, ⟨"http", "localhost:9093", ""⟩⟩, GoMap.empty⟩ 1 (by decide)).1,
    (NewClient_resolution_total goStdlib 0 ⟨"", none⟩
      ⟨⟨"http", "localhost", some 9093, some 9093⟩,
        ⟨0, ⟨"http", "localhost:9093", ""⟩⟩, GoMap.empty⟩ 1 (by decide)).2.2.1 rfl⟩

/-- C10, as stated, fails: the URL `http://[2001:db8::1]` is parseable and its authority has
no port segment, and `NewClient` fails in the URL-handling branch, converting `db8`. -/
theorem NewClient_url_no_port_counterexample :
    goUrlParse "http://[2001:db8::1]" = .ok ⟨"http", "[2001:db8::1]", ""⟩ ∧
      resolveConfig goStdlib ⟨"http://[2001:db8::1]", none⟩ =
        .error "error converting port：strconv.Atoi: parsing \"db8\": invalid syntax" ∧
      NewClient goStdlib 0 ⟨"http://[2001:db8::1]", none⟩ =
        .error "error converting port：strconv.Atoi: parsing \"db8\": invalid syntax" := by
  decide

/-- C10 (amended): for a configuration with a non-empty URL, `NewClient` returns an error and
no client when `url.Parse` rejects the URL, and when the authority has a colon and
`strconv.Atoi` rejects the text between its first colon and its next colon (or its end);
when the authority has no colon, or `strconv.Atoi` accepts that text, the URL-handling branch
does not fail. -/
theorem NewClient_url_errors (lib : Stdlib) (heap : Nat) (cfg : ClientConfig)
    (hne : cfg.URL ≠ "") :
    (∀ e, lib.urlParse cfg.URL = .error e → NewClient lib heap cfg = .error e) ∧
      (∀ su seg e, lib.urlParse cfg.URL = .ok su → afterFirstColon su.Host = some seg →
        lib.atoi seg = .error e →
        NewClient lib heap cfg = .error ("error converting port：" ++ e)) ∧
      (∀ su, lib.urlParse cfg.URL = .ok su →
        (afterFirstColon su.Host = none ∨
          ∃ seg i, afterFirstColon su.Host = some seg ∧ lib.atoi seg = .ok i) →
        ∃ r, resolveConfig lib cfg = .ok r) := by
  refine ⟨?_, ?_, ?_⟩
  · intro e he
    rw [NewClient_eq]
    have : resolveConfig lib cfg = .error e := by
      unfold resolveConfig
      rw [if_pos hne, he]
    rw [this]
  · intro su seg e hp ha hi
    rw [NewClient_eq, resolveConfig_url lib cfg su hne hp, ha]
    simp only [hi]
  · intro su hp hcase
    rw [resolveConfig_url lib cfg su hne hp]
    rcases hcase with ha | ⟨seg, i, ha, hi⟩
    · rw [ha]; exact ⟨_, rfl⟩
    · rw [ha]; simp only [hi]; exact ⟨_, rfl⟩

/-- C10 (amended), on `http://localhost:`: the port segment is empty and `NewClient` returns
the conversion error. -/
theorem NewClient_url_errors_witness :
    NewClient goStdlib 0 ⟨"http://localhost:", none⟩ =
      .error "error converting port：strconv.Atoi: parsing \"\": invalid syntax" :=
  (NewClient_url_errors goStdlib 0 ⟨"http://localhost:", none⟩ (by decide)).2.1
    ⟨"http", "localhost:", ""⟩ "" "strconv.Atoi: parsing \"\": invalid syntax"
    (by decide) (by decide) (by decide)

/-! ## Peer discovery -/

theorem peerHostsLoop_eq (peers : List PeerStatus) (acc : List String)
    (h : ∀ ps ∈ peers, ps.Address ≠ none) :
    peerHostsLoop peers acc =
      some (acc ++ ((peers.filterMap PeerStatus.Address).map beforeFirstColon).filter
        (fun x => x ≠ "")) := by
  induction peers generalizing acc with
  | nil => simp [peerHostsLoop]
  | cons ps rest ih =>
    have hrest : ∀ q ∈ rest, q.Address ≠ none := fun q hq => h q (List.mem_cons_of_mem _ hq)
    cases ha : ps.Address with
    | none => exact absurd ha (h ps (List.mem_cons_self _ _))
    | some addr =>
      rw [peerHostsLoop, ha]
      simp only [splitColon_headD]
      by_cases he : beforeFirstColon addr = ""
      · rw [if_neg (by simpa using he), ih acc hrest]
        simp [List.filterMap_cons, ha, List.filter_cons, he]
      · rw [if_pos he, ih _ hrest]
        simp [List.filterMap_cons, ha, List.filter_cons, he]

/-- C6, as stated, fails: for the peer address `[fd00::2]:9094` the part before the last
colon is `[fd00::2]`, and `peerHosts` returns `[fd00`. -/
theorem peerHosts_last_colon_counterexample :
    peerHosts statusIPv6 = some ["[fd00"] ∧ beforeLastColon "[fd00::2]:9094" = "[fd00::2]" ∧
      peerHosts statusIPv6 ≠ some [beforeLastColon "[fd00::2]:9094"] := by
  decide

/-- C6 (amended): `peerHosts` returns the empty result when the status has no cluster
information; when every peer carries an address it returns, in peer order, the part of each
address before its FIRST colon, omitting exactly the entries for which that part is empty;
for an address `host:port` whose `host` has no colon that part is `host`. -/
theorem peerHosts_first_colon (s : AlertmanagerStatus) :
    (s.Cluster = none → peerHosts s = some []) ∧
      (∀ cl, s.Cluster = some cl → (∀ ps ∈ cl.Peers, ps.Address ≠ none) →
        peerHosts s = some (((cl.Peers.filterMap PeerStatus.Address).map
          beforeFirstColon).filter (fun x => x ≠ ""))) ∧
      (∀ host port : String, ':' ∉ host.data →
        beforeFirstColon (host ++ ":" ++ port) = host) := by
  refine ⟨?_, ?_, ?_⟩
  · intro h
    simp [peerHosts, h]
  · intro cl h hall
    simp only [peerHosts, h]
    rw [peerHostsLoop_eq cl.Peers [] hall]
    simp
  · intro host port h
    exact beforeFirstColon_append host port h

/-- C6 (amended), on two peers `10.0.0.2:9094` and `10.0.0.3:9094`: the hosts are `10.0.0.2`
and `10.0.0.3`. -/
theorem peerHosts_first_colon_witness :
    peerHosts statusTwoPeers = some ["10.0.0.2", "10.0.0.3"] :=
  ((peerHosts_first_colon statusTwoPeers).2.1
    ⟨"am", [⟨some "10.0.0.2:9094", some "a"⟩, ⟨some "10.0.0.3:9094", some "b"⟩], some "ready"⟩
    rfl (by decide)).trans (by decide)

/-! ## Alert fan-out -/

/-- C4: if the status call through the shared connection fails with error `e`, `PostAlerts`
returns `e`, issues no alert-post wire call, and leaves the client, its registry included,
and the allocation counter as they were. -/
theorem PostAlerts_status_failure (lib : Stdlib) (order : List Alertmanager → List Alertmanager)
    (post : PostOracle) (c : AlertmanagerClient) (heap : Nat) (alerts : List RawAlert)
    (e : Error) :
    PostAlerts lib order (.error e) post c heap alerts = ⟨.err e, c, heap, []⟩ ∧
      (PostAlerts lib order (.error e) post c heap alerts).calls = [] ∧
      (PostAlerts lib order (.error e) post c heap alerts).client.backends = c.backends := by
  have h : PostAlerts lib order (.error e) post c heap alerts = ⟨.err e, c, heap, []⟩ := by
    simp [PostAlerts, selectAms, GetStatus]
  rw [h]
  exact ⟨rfl, rfl, rfl⟩

theorem postLoop_first_failure (post : PostOracle) (p : PostAlertsParams)
    (ams : List Alertmanager) (i k : Nat) (e : Error) (hk : k < ams.length)
    (hbefore : ∀ j, j < k → ∀ am, ams[j]? = some am → post (i + j) am p = none)
    (hat : ∀ am, ams[k]? = some am → post (i + k) am p = some e) :
    postLoop post p ams i = (.err e, (ams.take (k + 1)).map (fun am => (am, p))) := by
  induction ams generalizing i k with
  | nil => simp at hk
  | cons am rest ih =>
    cases k with
    | zero =>
      have h0 : post i am p = some e := by simpa using hat am (by simp)
      simp [postLoop, h0]
    | succ k =>
      have h0 : post i am p = none := by simpa using hbefore 0 (Nat.succ_pos k) am (by simp)
      have hk' : k < rest.length := by simpa using hk
      have ih' := ih (i + 1) k hk'
        (fun j hj a ha => by
          have := hbefore (j + 1) (by omega) a (by simpa using ha)
          rwa [show i + (j + 1) = i + 1 + j by omega] at this)
        (fun a ha => by
          have := hat a (by simpa using ha)
          rwa [show i + (k + 1) = i + 1 + k by omega] at this)
      simp [postLoop, h0, ih']

theorem postLoop_all_ok (post : PostOracle) (p : PostAlertsParams)
    (ams : List Alertmanager) (i : Nat)
    (hall : ∀ j am, ams[j]? = some am → post (i + j) am p = none) :
    postLoop post p ams i = (.ok (), ams.map (fun am => (am, p))) := by
  induction ams generalizing i with
  | nil => simp [postLoop]
  | cons am rest ih =>
    have h0 : post i am p = none := by simpa using hall 0 am (by simp)
    have ih' := ih (i + 1) (fun j a ha => by
      have := hall (j + 1) a (by simpa using ha)
      rwa [show i + (j + 1) = i + 1 + j by omega] at this)
    simp [postLoop, h0, ih']

/-- C5: when `PostAlerts` has selected the connections `ams`, and the call at position `k`
(counted from 0) is the first that fails, with error `e`, `PostAlerts` issues exactly the
calls to the first `k + 1` connections, in order, and returns `e`; when no call fails it
issues the calls to all of `ams` and returns no error. -/
theorem PostAlerts_short_circuit (lib : Stdlib) (order : List Alertmanager → List Alertmanager)
    (status : Except Error AlertmanagerStatus) (post : PostOracle)
    (c : AlertmanagerClient) (heap : Nat) (alerts : List RawAlert) (ams : List Alertmanager)
    (hsel : (selectAms lib order status c heap).ret = .ok ams) :
    (∀ k e, k < ams.length →
        (∀ j, j < k → ∀ am, ams[j]? = some am → post j am (toPostAlertsParams alerts) = none) →
        (∀ am, ams[k]? = some am → post k am (toPostAlertsParams alerts) = some e) →
        (PostAlerts lib order status post c heap alerts).ret = .err e ∧
          (PostAlerts lib order status post c heap alerts).calls =
            (ams.take (k + 1)).map (fun am => (am, toPostAlertsParams alerts))) ∧
      ((∀ j am, ams[j]? = some am → post j am (toPostAlertsParams alerts) = none) →
        (PostAlerts lib order status post c heap alerts).ret = .ok () ∧
          (PostAlerts lib order status post c heap alerts).calls =
            ams.map (fun am => (am, toPostAlertsParams alerts))) := by
  refine ⟨?_, ?_⟩
  · intro k e hk hbefore hat
    have h := postLoop_first_failure post (toPostAlertsParams alerts) ams 0 k e hk
      (fun j hj am ham => by simpa using hbefore j hj am ham)
      (fun am ham => by simpa using hat am ham)
    simp only [PostAlerts, hsel, h, and_self]
  · intro hall
    have h := postLoop_all_ok post (toPostAlertsParams alerts) ams 0
      (fun j am ham => by simpa using hall j am ham)
    simp only [PostAlerts, hsel, h, and_self]

/-- C5, on two peers where the second call fails: `PostAlerts` issues the two calls and
returns the error. -/
theorem PostAlerts_short_circuit_witness :
    (selectAms goStdlib id (.ok statusTwoPeers) exampleClient 1).ret = .ok exampleHandles ∧
      (PostAlerts goStdlib id (.ok statusTwoPeers) postSecondFails exampleClient 1 []).ret =
        .err "connection refused" ∧
      (PostAlerts goStdlib id (.ok statusTwoPeers) postSecondFails exampleClient 1 []).calls =
        (exampleHandles.take 2).map (fun am => (am, toPostAlertsParams [])) :=
  ⟨by decide,
    (PostAlerts_short_circuit goStdlib id (.ok statusTwoPeers) postSecondFails exampleClient 1
      [] exampleHandles (by decide)).1 1 "connection refused" (by decide)
      (fun j hj am _ => by
        have hj0 : j = 0 := by omega
        subst hj0
        rfl)
      (fun am _ => rfl)⟩

/-! ## The registry: lemmas -/

theorem find_fst_eq_some_iff {V : Type} (l : List (String × V))
    (hnd : (l.map Prod.fst).Nodup) (k : String) (v : V) :
    (l.find? (fun e => e.1 = k)).map Prod.snd = some v ↔ (k, v) ∈ l := by
  induction l with
  | nil => simp
  | cons e rest ih =>
    obtain ⟨k', v'⟩ := e
    rw [List.map_cons, List.nodup_cons] at hnd
    by_cases hk : k' = k
    · subst hk
      have hnot : ∀ w, (k', w) ∉ rest := fun w hw =>
        hnd.1 (List.mem_map.2 ⟨(k', w), hw, rfl⟩)
      simp only [List.find?_cons, decide_True, Option.map_some', Option.some.injEq,
        List.mem_cons, Prod.mk.injEq, true_and]
      constructor
      · intro h; exact Or.inl h.symm
      · rintro (h | h)
        · exact h.symm
        · exact absurd h (hnot v)
    · have hk' : ¬ k = k' := fun h => hk h.symm
      simp only [List.find?_cons, hk, decide_False, List.mem_cons, Prod.mk.injEq, hk',
        false_and, false_or]
      exact ih hnd.2

theorem find_fst_eq_none_iff {V : Type} (l : List (String × V)) (k : String) :
    (l.find? (fun e => e.1 = k)).map Prod.snd = none ↔ k ∉ l.map Prod.fst := by
  induction l with
  | nil => simp
  | cons e rest ih =>
    obtain ⟨k', v'⟩ := e
    by_cases hk : k' = k
    · subst hk; simp
    · have hk' : ¬ k = k' := fun h => hk h.symm
      simp only [List.find?_cons, hk, decide_False, List.map_cons, List.mem_cons, hk',
        false_or]
      exact ih

namespace GoMap

variable {V : Type}

theorem get_eq_some_iff (m : GoMap V) (k : String) (v : V) :
    m.get k = some v ↔ (k, v) ∈ m.entries :=
  find_fst_eq_some_iff m.entries m.nodup k v

theorem get_eq_none_iff (m : GoMap V) (k : String) : m.get k = none ↔ k ∉ m.keys :=
  find_fst_eq_none_iff m.entries k

theorem mem_keys_iff (m : GoMap V) (k : String) : k ∈ m.keys ↔ ∃ v, m.get k = some v := by
  constructor
  · intro h
    cases hg : m.get k with
    | none => exact absurd h ((get_eq_none_iff m k).1 hg)
    | some v => exact ⟨v, rfl⟩
  · rintro ⟨v, hv⟩
    by_contra hn
    rw [(get_eq_none_iff m k).2 hn] at hv
    cases hv

theorem ext_entries {a b : GoMap V} (h : a.entries = b.entries) : a = b := by
  cases a; cases b; cases h; rfl

theorem delete_entries (m : GoMap V) (k : String) :
    (m.delete k).entries = m.entries.filter (fun e => e.1 ≠ k) := rfl

theorem set_entries_of_get_none (m : GoMap V) (k : String) (v : V) (h : m.get k = none) :
    (m.set k v).entries = m.entries ++ [(k, v)] := by
  have hk : k ∉ m.keys := (get_eq_none_iff m k).1 h
  have hf : m.entries.filter (fun e => e.1 ≠ k) = m.entries := by
    rw [List.filter_eq_self]
    intro e he
    have : e.1 ≠ k := fun heq => hk (List.mem_map.2 ⟨e, he, heq⟩)
    simpa using this
  show (m.delete k).entries ++ [(k, v)] = m.entries ++ [(k, v)]
  rw [delete_entries, hf]

theorem values_eq_filterMap (m : GoMap V) : m.values = m.keys.filterMap m.get := by
  unfold values keys
  have key : ∀ (l : List (String × V)), (∀ e ∈ l, m.get e.1 = some e.2) →
      l.map Prod.snd = (l.map Prod.fst).filterMap m.get := by
    intro l
    induction l with
    | nil => intro _; rfl
    | cons e rest ih =>
      intro h
      rw [List.map_cons, List.map_cons, List.filterMap_cons, h e (List.mem_cons_self _ _)]
      simp only [List.cons.injEq, true_and]
      exact ih (fun e' he' => h e' (List.mem_cons_of_mem _ he'))
  exact key m.entries (fun e he => (get_eq_some_iff m e.1 e.2).2 he)

end GoMap

theorem evict_foldl_entries (phmap : List String) (ks : List String)
    (m : GoMap Alertmanager) :
    (ks.foldl (fun m u => if u ∈ phmap then m else m.delete u) m).entries =
      m.entries.filter (fun e => decide (e.1 ∈ phmap ∨ e.1 ∉ ks)) := by
  induction ks generalizing m with
  | nil =>
    simp
  | cons k rest ih =>
    rw [List.foldl_cons]
    by_cases hk : k ∈ phmap
    · rw [if_pos hk, ih]
      apply List.filter_congr
      intro e _
      by_cases he : e.1 = k
      · simp [he, hk]
      · simp [he]
    · rw [if_neg hk, ih, GoMap.delete_entries, List.filter_filter]
      apply List.filter_congr
      intro e _
      by_cases he : e.1 = k
      · simp [he, hk]
      · simp [he]

theorem evictLoop_entries (phmap : List String) (m : GoMap Alertmanager) :
    (evictLoop phmap m).entries = m.entries.filter (fun e => decide (e.1 ∈ phmap)) := by
  unfold evictLoop
  rw [evict_foldl_entries]
  apply List.filter_congr
  intro e he
  have : e.1 ∈ m.keys := List.mem_map.2 ⟨e, he, rfl⟩
  simp [this]

/-! ## getBackends: lemmas -/

/-- The URLs the first loop of `getBackends` computes for a list of hosts. -/
theorem insertLoop_spec (lib : Stdlib) (cfg : Config) (hosts : List String)
    (b : GoMap Alertmanager) (phmap : List String) (heap : Nat) :
    ∃ new : List (String × Alertmanager),
      (insertLoop lib cfg hosts b phmap heap).2.1.entries = b.entries ++ new ∧
      (insertLoop lib cfg hosts b phmap heap).2.2.2 = heap + new.length ∧
      (∀ e ∈ new, e.1 ∉ b.keys ∧ heap ≤ e.2.id ∧ e.2.id < heap + new.length ∧
        lib.urlParse e.1 = .ok e.2.target ∧
        ∃ ph ∈ hosts, ∃ tp, cfg.targetPort = some tp ∧ e.1 = sprintfURL cfg.scheme ph tp) ∧
      ((insertLoop lib cfg hosts b phmap heap).1 = .done →
        (∀ u, u ∈ (insertLoop lib cfg hosts b phmap heap).2.2.1 ↔
          u ∈ phmap ∨
            ∃ ph ∈ hosts, ∃ tp, cfg.targetPort = some tp ∧ u = sprintfURL cfg.scheme ph tp) ∧
        (∀ ph ∈ hosts, ∃ tp, cfg.targetPort = some tp ∧
          sprintfURL cfg.scheme ph tp ∈ (insertLoop lib cfg hosts b phmap heap).2.1.keys)) := by
  induction hosts generalizing b phmap heap with
  | nil =>
    refine ⟨[], by simp [insertLoop], by simp [insertLoop], by simp, ?_⟩
    intro _
    simp [insertLoop]
  | cons ph rest ih =>
    have hcases : cfg.targetPort = none ∨ ∃ tp, cfg.targetPort = some tp := by
      cases cfg.targetPort with
      | none => exact Or.inl rfl
      | some tp => exact Or.inr ⟨tp, rfl⟩
    rcases hcases with htp | ⟨tp, htp⟩
    · refine ⟨[], by simp [insertLoop, htp], by simp [insertLoop, htp], by simp, ?_⟩
      intro hd
      simp [insertLoop, htp] at hd
    · cases hg : b.get (sprintfURL cfg.scheme ph tp) with
      | some am0 =>
        have heq : insertLoop lib cfg (ph :: rest) b phmap heap =
            insertLoop lib cfg rest b (sprintfURL cfg.scheme ph tp :: phmap) heap := by
          rw [insertLoop]; simp only [htp, hg]
        rw [heq]
        obtain ⟨new, he, hh, hnew, hdone⟩ :=
          ih b (sprintfURL cfg.scheme ph tp :: phmap) heap
        refine ⟨new, he, hh, ?_, ?_⟩
        · intro e hemem
          obtain ⟨h1, h2, h3, h4, ph', hph', tp', htp', hu⟩ := hnew e hemem
          exact ⟨h1, h2, h3, h4, ph', List.mem_cons_of_mem _ hph', tp', htp', hu⟩
        · intro hd
          obtain ⟨hm, hk⟩ := hdone hd
          refine ⟨?_, ?_⟩
          · intro u
            rw [hm u]
            constructor
            · rintro (h | ⟨ph', hph', tp', htp', hu⟩)
              · rcases List.mem_cons.1 h with h | h
                · exact Or.inr ⟨ph, List.mem_cons_self _ _, tp, htp, h⟩
                · exact Or.inl h
              · exact Or.inr ⟨ph', List.mem_cons_of_mem _ hph', tp', htp', hu⟩
            · rintro (h | ⟨ph', hph', tp', htp', hu⟩)
              · exact Or.inl (List.mem_cons_of_mem _ h)
              · rcases List.mem_cons.1 hph' with h | h
                · subst h
                  rw [htp] at htp'
                  cases htp'
                  exact Or.inl (by rw [hu]; exact List.mem_cons_self _ _)
                · exact Or.inr ⟨ph', h, tp', htp', hu⟩
          · intro ph' hph'
            rcases List.mem_cons.1 hph' with h | h
            · subst h
              refine ⟨tp, htp, ?_⟩
              have hin : sprintfURL cfg.scheme ph' tp ∈ b.keys :=
                (GoMap.mem_keys_iff b _).2 ⟨am0, hg⟩
              unfold GoMap.keys at hin ⊢
              rw [he, List.map_append]
              exact List.mem_append_left _ hin
            · exact hk ph' h
      | none =>
        cases hp : lib.urlParse (sprintfURL cfg.scheme ph tp) with
        | error e =>
          refine ⟨[], by rw [insertLoop]; simp [htp, hg, hp],
            by rw [insertLoop]; simp [htp, hg, hp], by simp, ?_⟩
          intro hd
          rw [insertLoop] at hd
          simp [htp, hg, hp] at hd
        | ok uu =>
          have heq : insertLoop lib cfg (ph :: rest) b phmap heap =
              insertLoop lib cfg rest (b.set (sprintfURL cfg.scheme ph tp) ⟨heap, uu⟩)
                (sprintfURL cfg.scheme ph tp :: phmap) (heap + 1) := by
            rw [insertLoop]; simp only [htp, hg, hp, NewAlertmanagerClient]
          rw [heq]
          have hb1 := GoMap.set_entries_of_get_none b (sprintfURL cfg.scheme ph tp)
            ⟨heap, uu⟩ hg
          obtain ⟨new, he, hh, hnew, hdone⟩ :=
            ih (b.set (sprintfURL cfg.scheme ph tp) ⟨heap, uu⟩)
              (sprintfURL cfg.scheme ph tp :: phmap) (heap + 1)
          have hsub : ∀ k, k ∈ b.keys →
              k ∈ (b.set (sprintfURL cfg.scheme ph tp) ⟨heap, uu⟩).keys := by
            intro k hk
            unfold GoMap.keys at hk ⊢
            rw [hb1, List.map_append]
            exact List.mem_append_left _ hk
          refine ⟨(sprintfURL cfg.scheme ph tp, ⟨heap, uu⟩) :: new, ?_, ?_, ?_, ?_⟩
          · rw [he, hb1]; simp
          · rw [hh]; simp only [List.length_cons]; omega
          · intro e hemem
            rcases List.mem_cons.1 hemem with h | h
            · subst h
              refine ⟨(GoMap.get_eq_none_iff b _).1 hg, Nat.le_refl _, ?_, hp,
                ph, List.mem_cons_self _ _, tp, htp, rfl⟩
              simp only [List.length_cons]; omega
            · obtain ⟨h1, h2, h3, h4, ph', hph', tp', htp', hu⟩ := hnew e h
              refine ⟨fun hk => h1 (hsub _ hk), by omega, ?_, h4,
                ph', List.mem_cons_of_mem _ hph', tp', htp', hu⟩
              simp only [List.length_cons]; omega
          · intro hd
            obtain ⟨hm, hk⟩ := hdone hd
            refine ⟨?_, ?_⟩
            · intro u
              rw [hm u]
              constructor
              · rintro (h | ⟨ph', hph', tp', htp', hu⟩)
                · rcases List.mem_cons.1 h with h | h
                  · exact Or.inr ⟨ph, List.mem_cons_self _ _, tp, htp, h⟩
                  · exact Or.inl h
                · exact Or.inr ⟨ph', List.mem_cons_of_mem _ hph', tp', htp', hu⟩
              · rintro (h | ⟨ph', hph', tp', htp', hu⟩)
                · exact Or.inl (List.mem_cons_of_mem _ h)
                · rcases List.mem_cons.1 hph' with h | h
                  · subst h
                    rw [htp] at htp'
                    cases htp'
                    exact Or.inl (by rw [hu]; exact List.mem_cons_self _ _)
                  · exact Or.inr ⟨ph', h, tp', htp', hu⟩
            · intro ph' hph'
              rcases List.mem_cons.1 hph' with h | h
              · subst h
                refine ⟨tp, htp, ?_⟩
                have hin : sprintfURL cfg.scheme ph' tp ∈
                    (b.set (sprintfURL cfg.scheme ph' tp) ⟨heap, uu⟩).keys := by
                  unfold GoMap.keys
                  rw [hb1, List.map_append]
                  exact List.mem_append_right _ (by simp)
                unfold GoMap.keys at hin ⊢
                rw [he, List.map_append]
                exact List.mem_append_left _ hin
              · exact hk ph' h

theorem getBackends_cases (lib : Stdlib) (order : List Alertmanager → List Alertmanager)
    (c : AlertmanagerClient) (heap : Nat) (hosts : List String) :
    ((insertLoop lib c.config hosts c.backends [] heap).1 = .done ∧
      getBackends lib order c heap hosts =
        ⟨.ok (order (evictLoop (insertLoop lib c.config hosts c.backends [] heap).2.2.1
            (insertLoop lib c.config hosts c.backends [] heap).2.1).values),
          withBackends c
            (evictLoop (insertLoop lib c.config hosts c.backends [] heap).2.2.1
              (insertLoop lib c.config hosts c.backends [] heap).2.1),
          (insertLoop lib c.config hosts c.backends [] heap).2.2.2⟩) ∨
    (∃ e, (insertLoop lib c.config hosts c.backends [] heap).1 = .fail e ∧
      getBackends lib order c heap hosts =
        ⟨.err e, withBackends c (insertLoop lib c.config hosts c.backends [] heap).2.1,
          (insertLoop lib c.config hosts c.backends [] heap).2.2.2⟩) ∨
    ((insertLoop lib c.config hosts c.backends [] heap).1 = .panic ∧
      getBackends lib order c heap hosts =
        ⟨.panic, withBackends c (insertLoop lib c.config hosts c.backends [] heap).2.1,
          (insertLoop lib c.config hosts c.backends [] heap).2.2.2⟩) := by
  unfold getBackends
  generalize insertLoop lib c.config hosts c.backends [] heap = R
  obtain ⟨ex, b, pm, h⟩ := R
  cases ex with
  | done => exact Or.inl ⟨rfl, rfl⟩
  | fail e => exact Or.inr (Or.inl ⟨e, rfl, rfl⟩)
  | panic => exact Or.inr (Or.inr ⟨rfl, rfl⟩)

theorem insertLoop_present (lib : Stdlib) (cfg : Config) (hosts : List String)
    (b : GoMap Alertmanager) (phmap : List String) (heap : Nat)
    (h : ∀ ph ∈ hosts, ∃ tp, cfg.targetPort = some tp ∧ sprintfURL cfg.scheme ph tp ∈ b.keys) :
    (insertLoop lib cfg hosts b phmap heap).1 = .done ∧
      (insertLoop lib cfg hosts b phmap heap).2.1 = b ∧
      (insertLoop lib cfg hosts b phmap heap).2.2.2 = heap := by
  induction hosts generalizing phmap with
  | nil => simp [insertLoop]
  | cons ph rest ih =>
    obtain ⟨tp, htp, hin⟩ := h ph (List.mem_cons_self _ _)
    obtain ⟨am, ham⟩ := (GoMap.mem_keys_iff b _).1 hin
    have heq : insertLoop lib cfg (ph :: rest) b phmap heap =
        insertLoop lib cfg rest b (sprintfURL cfg.scheme ph tp :: phmap) heap := by
      rw [insertLoop]; simp only [htp, ham]
    rw [heq]
    exact ih _ (fun q hq => h q (List.mem_cons_of_mem _ hq))

theorem insertLoop_keys_mono (lib : Stdlib) (cfg : Config) (hosts : List String)
    (b : GoMap Alertmanager) (phmap : List String) (heap : Nat) (u : String)
    (hu : u ∈ b.keys) : u ∈ (insertLoop lib cfg hosts b phmap heap).2.1.keys := by
  obtain ⟨new, he, _⟩ := insertLoop_spec lib cfg hosts b phmap heap
  unfold GoMap.keys at hu ⊢
  rw [he, List.map_append]
  exact List.mem_append_left _ hu

theorem insertLoop_again (lib : Stdlib) (cfg : Config) (hosts : List String)
    (b : GoMap Alertmanager) (phmap : List String) (heap : Nat)
    (phmap2 : List String) (heap2 : Nat) :
    (insertLoop lib cfg hosts (insertLoop lib cfg hosts b phmap heap).2.1 phmap2 heap2).1 =
        (insertLoop lib cfg hosts b phmap heap).1 ∧
      (insertLoop lib cfg hosts (insertLoop lib cfg hosts b phmap heap).2.1 phmap2 heap2).2.1 =
        (insertLoop lib cfg hosts b phmap heap).2.1 ∧
      (insertLoop lib cfg hosts (insertLoop lib cfg hosts b phmap heap).2.1
        phmap2 heap2).2.2.2 = heap2 := by
  induction hosts generalizing b phmap heap phmap2 heap2 with
  | nil => simp [insertLoop]
  | cons ph rest ih =>
    have hcases : cfg.targetPort = none ∨ ∃ tp, cfg.targetPort = some tp := by
      cases cfg.targetPort with
      | none => exact Or.inl rfl
      | some tp => exact Or.inr ⟨tp, rfl⟩
    rcases hcases with htp | ⟨tp, htp⟩
    · have h1 : ∀ b' pm' hp', insertLoop lib cfg (ph :: rest) b' pm' hp' =
          (.panic, b', pm', hp') := by
        intro b' pm' hp'; rw [insertLoop]; simp only [htp]
      rw [h1 b phmap heap]
      simp only
      rw [h1 b phmap2 heap2]
      exact ⟨rfl, rfl, rfl⟩
    · cases hg : b.get (sprintfURL cfg.scheme ph tp) with
      | some am0 =>
        have heq : insertLoop lib cfg (ph :: rest) b phmap heap =
            insertLoop lib cfg rest b (sprintfURL cfg.scheme ph tp :: phmap) heap := by
          rw [insertLoop]; simp only [htp, hg]
        rw [heq]
        have hin : sprintfURL cfg.scheme ph tp ∈
            (insertLoop lib cfg rest b (sprintfURL cfg.scheme ph tp :: phmap) heap).2.1.keys :=
          insertLoop_keys_mono lib cfg rest b _ heap _ ((GoMap.mem_keys_iff b _).2 ⟨am0, hg⟩)
        obtain ⟨am1, ham1⟩ := (GoMap.mem_keys_iff _ _).1 hin
        have heq2 : insertLoop lib cfg (ph :: rest)
            (insertLoop lib cfg rest b (sprintfURL cfg.scheme ph tp :: phmap) heap).2.1
              phmap2 heap2 =
            insertLoop lib cfg rest
              (insertLoop lib cfg rest b (sprintfURL cfg.scheme ph tp :: phmap) heap).2.1
              (sprintfURL cfg.scheme ph tp :: phmap2) heap2 := by
          rw [insertLoop]; simp only [htp, ham1]
        rw [heq2]
        exact ih b _ heap _ heap2
      | none =>
        cases hp : lib.urlParse (sprintfURL cfg.scheme ph tp) with
        | error e =>
          have h1 : ∀ pm' hp', insertLoop lib cfg (ph :: rest) b pm' hp' =
              (.fail e, b, sprintfURL cfg.scheme ph tp :: pm', hp') := by
            intro pm' hp'; rw [insertLoop]; simp only [htp, hg, hp]
          rw [h1 phmap heap]
          simp only
          rw [h1 phmap2 heap2]
          exact ⟨rfl, rfl, rfl⟩
        | ok uu =>
          have heq : insertLoop lib cfg (ph :: rest) b phmap heap =
              insertLoop lib cfg rest (b.set (sprintfURL cfg.scheme ph tp) ⟨heap, uu⟩)
                (sprintfURL cfg.scheme ph tp :: phmap) (heap + 1) := by
            rw [insertLoop]; simp only [htp, hg, hp, NewAlertmanagerClient]
          rw [heq]
          have hb1 := GoMap.set_entries_of_get_none b (sprintfURL cfg.scheme ph tp)
            ⟨heap, uu⟩ hg
          have hin0 : sprintfURL cfg.scheme ph tp ∈
              (b.set (sprintfURL cfg.scheme ph tp) ⟨heap, uu⟩).keys := by
            unfold GoMap.keys
            rw [hb1, List.map_append]
            exact List.mem_append_right _ (by simp)
          have hin := insertLoop_keys_mono lib cfg rest
            (b.set (sprintfURL cfg.scheme ph tp) ⟨heap, uu⟩)
            (sprintfURL cfg.scheme ph tp :: phmap) (heap + 1) _ hin0
          obtain ⟨am1, ham1⟩ := (GoMap.mem_keys_iff _ _).1 hin
          have heq2 : insertLoop lib cfg (ph :: rest)
              (insertLoop lib cfg rest (b.set (sprintfURL cfg.scheme ph tp) ⟨heap, uu⟩)
                (sprintfURL cfg.scheme ph tp :: phmap) (heap + 1)).2.1 phmap2 heap2 =
              insertLoop lib cfg rest
                (insertLoop lib cfg rest (b.set (sprintfURL cfg.scheme ph tp) ⟨heap, uu⟩)
                  (sprintfURL cfg.scheme ph tp :: phmap) (heap + 1)).2.1
                (sprintfURL cfg.scheme ph tp :: phmap2) heap2 := by
            rw [insertLoop]; simp only [htp, ham1]
          rw [heq2]
          exact ih _ _ (heap + 1) _ heap2

/-- What a `getBackends` that returns without error leaves: the registry holds exactly the
entries of the registry after the first loop whose key is a peer URL, and every peer URL is
a key. -/
theorem getBackends_ok (lib : Stdlib) (order : List Alertmanager → List Alertmanager)
    (c : AlertmanagerClient) (heap : Nat) (hosts : List String) (ams : List Alertmanager)
    (h : (getBackends lib order c heap hosts).ret = .ok ams) :
    ams = order (getBackends lib order c heap hosts).client.backends.values ∧
      (getBackends lib order c heap hosts).client.config = c.config ∧
      (getBackends lib order c heap hosts).client.balancer = c.balancer ∧
      (∀ u, u ∈ (getBackends lib order c heap hosts).client.backends.keys ↔
        IsPeerURL c hosts u) ∧
      (∀ e, e ∈ (getBackends lib order c heap hosts).client.backends.entries →
        (e ∈ c.backends.entries ∨
          (e.1 ∉ c.backends.keys ∧ heap ≤ e.2.id ∧
            e.2.id < (getBackends lib order c heap hosts).heap ∧
            lib.urlParse e.1 = .ok e.2.target))) := by
  obtain ⟨new, he, hh, hnew, hdone⟩ := insertLoop_spec lib c.config hosts c.backends [] heap
  rcases getBackends_cases lib order c heap hosts with ⟨hd, hr⟩ | ⟨e, _, hr⟩ | ⟨_, hr⟩
  · obtain ⟨hm, hk⟩ := hdone hd
    rw [hr] at h ⊢
    simp only [Outcome.ok.injEq] at h
    have hmem : ∀ e, e ∈ (evictLoop (insertLoop lib c.config hosts c.backends [] heap).2.2.1
        (insertLoop lib c.config hosts c.backends [] heap).2.1).entries ↔
        (e ∈ c.backends.entries ++ new ∧ IsPeerURL c hosts e.1) := by
      intro e
      rw [evictLoop_entries, List.mem_filter, he]
      simp only [decide_eq_true_eq]
      rw [hm e.1]
      simp [IsPeerURL]
    refine ⟨h.symm, rfl, rfl, ?_, ?_⟩
    · intro u
      simp only
      unfold GoMap.keys
      rw [List.mem_map]
      constructor
      · rintro ⟨e, hemem, rfl⟩
        exact ((hmem e).1 hemem).2
      · intro hu
        obtain ⟨ph, hph, tp, htp, hurl⟩ := hu
        obtain ⟨tp', htp', hin⟩ := hk ph hph
        rw [htp] at htp'
        cases htp'
        unfold GoMap.keys at hin
        rw [List.mem_map] at hin
        obtain ⟨e, hemem, hfst⟩ := hin
        refine ⟨e, (hmem e).2 ⟨by rw [← he]; exact hemem, ?_⟩, by rw [hfst, hurl]⟩
        exact ⟨ph, hph, tp, htp, hfst⟩
    · intro e hemem
      simp only at hemem
      have h1 := ((hmem e).1 hemem).1
      rcases List.mem_append.1 h1 with h2 | h2
      · exact Or.inl h2
      · obtain ⟨a1, a2, a3, a4, _⟩ := hnew e h2
        refine Or.inr ⟨a1, a2, ?_, a4⟩
        simp only
        rw [hh]
        exact a3
  · rw [hr] at h; cases h
  · rw [hr] at h; cases h

/-- What every `getBackends` leaves, however it returns: the registry holds some of the
entries it held before, among them all whose key is a peer URL, followed by one new entry
per connection constructed, each under a key that was absent before. -/
theorem getBackends_frame (lib : Stdlib) (order : List Alertmanager → List Alertmanager)
    (c : AlertmanagerClient) (heap : Nat) (hosts : List String) :
    ∃ kept new : List (String × Alertmanager),
      (getBackends lib order c heap hosts).client.backends.entries = kept ++ new ∧
      (∀ e ∈ kept, e ∈ c.backends.entries) ∧
      (∀ e ∈ c.backends.entries, IsPeerURL c hosts e.1 → e ∈ kept) ∧
      (getBackends lib order c heap hosts).heap = heap + new.length ∧
      (∀ e ∈ new, e.1 ∉ c.backends.keys ∧ heap ≤ e.2.id ∧ e.2.id < heap + new.length ∧
        lib.urlParse e.1 = .ok e.2.target) := by
  obtain ⟨new, he, hh, hnew, hdone⟩ := insertLoop_spec lib c.config hosts c.backends [] heap
  have hnew' : ∀ e ∈ new, e.1 ∉ c.backends.keys ∧ heap ≤ e.2.id ∧
      e.2.id < heap + new.length ∧ lib.urlParse e.1 = .ok e.2.target :=
    fun e hemem => ⟨(hnew e hemem).1, (hnew e hemem).2.1, (hnew e hemem).2.2.1,
      (hnew e hemem).2.2.2.1⟩
  rcases getBackends_cases lib order c heap hosts with ⟨hd, hr⟩ | ⟨e, _, hr⟩ | ⟨_, hr⟩
  · obtain ⟨hm, _⟩ := hdone hd
    have hP : ∀ u, u ∈ (insertLoop lib c.config hosts c.backends [] heap).2.2.1 ↔
        IsPeerURL c hosts u := by
      intro u; rw [hm u]; simp [IsPeerURL]
    refine ⟨c.backends.entries.filter
      (fun e => decide (e.1 ∈ (insertLoop lib c.config hosts c.backends [] heap).2.2.1)),
      new, ?_, ?_, ?_, ?_, hnew'⟩
    · rw [hr]
      show (evictLoop _ _).entries = _
      rw [evictLoop_entries, he, List.filter_append]
      congr 1
      rw [List.filter_eq_self]
      intro e hemem
      obtain ⟨_, _, _, _, hpeer⟩ := hnew e hemem
      simpa using (hP e.1).2 hpeer
    · intro e hemem
      exact (List.mem_filter.1 hemem).1
    · intro e hemem hpeer
      exact List.mem_filter.2 ⟨hemem, by simpa using (hP e.1).2 hpeer⟩
    · rw [hr]; exact hh
  · refine ⟨c.backends.entries, new, ?_, fun e h => h, fun e h _ => h, ?_, hnew'⟩
    · rw [hr]; exact he
    · rw [hr]; exact hh
  · refine ⟨c.backends.entries, new, ?_, fun e h => h, fun e h _ => h, ?_, hnew'⟩
    · rw [hr]; exact he
    · rw [hr]; exact hh

theorem getBackends_config (lib : Stdlib) (order : List Alertmanager → List Alertmanager)
    (c : AlertmanagerClient) (heap : Nat) (hosts : List String) :
    (getBackends lib order c heap hosts).client.config = c.config ∧
      (getBackends lib order c heap hosts).client.balancer = c.balancer := by
  rcases getBackends_cases lib order c heap hosts with ⟨_, hr⟩ | ⟨e, _, hr⟩ | ⟨_, hr⟩ <;>
    rw [hr] <;> exact ⟨rfl, rfl⟩

theorem getBackends_again (lib : Stdlib) (order order2 : List Alertmanager → List Alertmanager)
    (c : AlertmanagerClient) (heap : Nat) (hosts : List String) :
    (getBackends lib order2 (getBackends lib order c heap hosts).client
        (getBackends lib order c heap hosts).heap hosts).client =
        (getBackends lib order c heap hosts).client ∧
      (getBackends lib order2 (getBackends lib order c heap hosts).client
        (getBackends lib order c heap hosts).heap hosts).heap =
        (getBackends lib order c heap hosts).heap := by
  rcases getBackends_cases lib order c heap hosts with ⟨hd, hr⟩ | ⟨e, hf, hr⟩ | ⟨hpn, hr⟩
  · -- the first call returned: every peer URL is a key, nothing is inserted or evicted
    have hok : (getBackends lib order c heap hosts).ret =
        .ok (order (getBackends lib order c heap hosts).client.backends.values) := by
      rw [hr]
      rfl
    obtain ⟨_, hcfg, _, hkeys, _⟩ := getBackends_ok lib order c heap hosts _ hok
    obtain ⟨_, _, _, _, hdone⟩ := insertLoop_spec lib c.config hosts c.backends [] heap
    obtain ⟨_, hk⟩ := hdone hd
    have hpresent : ∀ ph ∈ hosts, ∃ tp,
        (getBackends lib order c heap hosts).client.config.targetPort = some tp ∧
        sprintfURL (getBackends lib order c heap hosts).client.config.scheme ph tp ∈
          (getBackends lib order c heap hosts).client.backends.keys := by
      intro ph hph
      obtain ⟨tp, htp, _⟩ := hk ph hph
      rw [hcfg]
      exact ⟨tp, htp, (hkeys _).2 ⟨ph, hph, tp, htp, rfl⟩⟩
    generalize getBackends lib order c heap hosts = r at hcfg hkeys hpresent ⊢
    obtain ⟨h1, h2, h3⟩ := insertLoop_present lib r.client.config hosts r.client.backends []
      r.heap hpresent
    obtain ⟨_, _, _, _, hdone2⟩ := insertLoop_spec lib r.client.config hosts
      r.client.backends [] r.heap
    obtain ⟨hm2, _⟩ := hdone2 h1
    rcases getBackends_cases lib order2 r.client r.heap hosts with
      ⟨_, hr2⟩ | ⟨e, hf2, _⟩ | ⟨hp2, _⟩
    · rw [hr2]
      refine ⟨?_, h3⟩
      simp only
      have hE : evictLoop (insertLoop lib r.client.config hosts r.client.backends []
          r.heap).2.2.1 (insertLoop lib r.client.config hosts r.client.backends []
          r.heap).2.1 = r.client.backends := by
        apply GoMap.ext_entries
        rw [evictLoop_entries, h2, List.filter_eq_self]
        intro e hemem
        have hkey : e.1 ∈ r.client.backends.keys := List.mem_map.2 ⟨e, hemem, rfl⟩
        obtain ⟨ph, hph, tp, htp, hu⟩ := (hkeys e.1).1 hkey
        have : e.1 ∈ (insertLoop lib r.client.config hosts r.client.backends []
            r.heap).2.2.1 := by
          rw [hm2 e.1, hcfg]
          exact Or.inr ⟨ph, hph, tp, htp, hu⟩
        simpa using this
      rw [hE]
      rfl
    · rw [h1] at hf2; cases hf2
    · rw [h1] at hp2; cases hp2
  · -- the first call failed: the second fails at the same host
    obtain ⟨h1, h2, h3⟩ := insertLoop_again lib c.config hosts c.backends [] heap []
      (insertLoop lib c.config hosts c.backends [] heap).2.2.2
    rw [hr]
    rcases getBackends_cases lib order2
      (withBackends c (insertLoop lib c.config hosts c.backends [] heap).2.1)
      (insertLoop lib c.config hosts c.backends [] heap).2.2.2 hosts with
      ⟨hd2, _⟩ | ⟨e2, _, hr2⟩ | ⟨hp2, _⟩
    · simp only [withBackends] at hd2
      rw [h1, hf] at hd2; cases hd2
    · rw [hr2]
      simp only [withBackends] at h2 h3 ⊢
      rw [h2, h3]
      exact ⟨rfl, rfl⟩
    · simp only [withBackends] at hp2
      rw [h1, hf] at hp2; cases hp2
  · obtain ⟨h1, h2, h3⟩ := insertLoop_again lib c.config hosts c.backends [] heap []
      (insertLoop lib c.config hosts c.backends [] heap).2.2.2
    rw [hr]
    rcases getBackends_cases lib order2
      (withBackends c (insertLoop lib c.config hosts c.backends [] heap).2.1)
      (insertLoop lib c.config hosts c.backends [] heap).2.2.2 hosts with
      ⟨hd2, _⟩ | ⟨e2, hf2, _⟩ | ⟨_, hr2⟩
    · simp only [withBackends] at hd2
      rw [h1, hpn] at hd2; cases hd2
    · simp only [withBackends] at hf2
      rw [h1, hpn] at hf2; cases hf2
    · rw [hr2]
      simp only [withBackends] at h2 h3 ⊢
      rw [h2, h3]
      exact ⟨rfl, rfl⟩

/-! ## The registry -/

/-- C2: when `getBackends` returns without error, the keys of the registry afterwards are
exactly the URLs `scheme://h:targetPort` for the hosts `h` of the list, built with the
client's configured target-port; no key is repeated, and the returned list holds exactly the
connections of the registry, one per key. -/
theorem getBackends_registry (lib : Stdlib) (order : List Alertmanager → List Alertmanager)
    (c : AlertmanagerClient) (heap : Nat) (hosts : List String) (ams : List Alertmanager)
    (horder : ∀ l, (order l).Perm l)
    (h : (getBackends lib order c heap hosts).ret = .ok ams) :
    (∀ u, u ∈ (getBackends lib order c heap hosts).client.backends.keys ↔
        ∃ ph ∈ hosts, ∃ tp, c.config.targetPort = some tp ∧
          u = sprintfURL c.config.scheme ph tp) ∧
      (getBackends lib order c heap hosts).client.backends.keys.Nodup ∧
      ams.Perm (getBackends lib order c heap hosts).client.backends.values ∧
      ams.length = (getBackends lib order c heap hosts).client.backends.keys.length ∧
      (∀ u am, (getBackends lib order c heap hosts).client.backends.get u = some am →
        am ∈ ams) := by
  obtain ⟨hams, _, _, hkeys, _⟩ := getBackends_ok lib order c heap hosts ams h
  have hperm : ams.Perm (getBackends lib order c heap hosts).client.backends.values := by
    rw [hams]; exact horder _
  refine ⟨fun u => hkeys u, (getBackends lib order c heap hosts).client.backends.nodup,
    hperm, ?_, ?_⟩
  · rw [hperm.length_eq]
    simp [GoMap.values, GoMap.keys]
  · intro u am hget
    apply hperm.mem_iff.2
    have := (GoMap.get_eq_some_iff _ u am).1 hget
    exact List.mem_map.2 ⟨(u, am), this, rfl⟩

/-- C2, on the peers `10.0.0.2:9094` and `10.0.0.3:9094` with target-port 9093: the registry
ends with exactly the keys `http://10.0.0.2:9093` and `http://10.0.0.3:9093`. -/
theorem getBackends_registry_witness :
    peerHosts statusTwoPeers = some ["10.0.0.2", "10.0.0.3"] ∧
      (getBackends goStdlib id exampleClient 1 ["10.0.0.2", "10.0.0.3"]).client.backends.keys =
        ["http://10.0.0.2:9093", "http://10.0.0.3:9093"] ∧
      exampleHandles.Perm
        (getBackends goStdlib id exampleClient 1
          ["10.0.0.2", "10.0.0.3"]).client.backends.values :=
  ⟨by decide, by decide,
    (getBackends_registry goStdlib id exampleClient 1 ["10.0.0.2", "10.0.0.3"] exampleHandles
      (fun l => List.Perm.refl l) (by decide)).2.2.1⟩

/-- C3: `getBackends` keeps the handle of every URL that was in the registry and is a peer
URL of the host list; every handle in the registry afterwards is either the one the registry
had under that URL or a newly constructed one under a URL that was absent, and the number of
connections constructed is the number of such URLs; a second `getBackends` with the same
host list constructs no connection and leaves the registry as the first left it; and
`getBackends` of the empty host list leaves the registry empty. -/
theorem getBackends_reuse_idempotent (lib : Stdlib)
    (order order2 : List Alertmanager → List Alertmanager)
    (c : AlertmanagerClient) (heap : Nat) (hosts : List String) :
    (∀ u am, c.backends.get u = some am →
        (∃ ph ∈ hosts, ∃ tp, c.config.targetPort = some tp ∧
          u = sprintfURL c.config.scheme ph tp) →
        (getBackends lib order c heap hosts).client.backends.get u = some am) ∧
      (∀ u am, (getBackends lib order c heap hosts).client.backends.get u = some am →
        c.backends.get u = some am ∨
          (c.backends.get u = none ∧ heap ≤ am.id ∧
            am.id < (getBackends lib order c heap hosts).heap)) ∧
      (getBackends lib order c heap hosts).heap =
        heap + ((getBackends lib order c heap hosts).client.backends.keys.filter
          (fun u => decide (c.backends.get u = none))).length ∧
      (getBackends lib order2 (getBackends lib order c heap hosts).client
        (getBackends lib order c heap hosts).heap hosts).heap =
        (getBackends lib order c heap hosts).heap ∧
      (getBackends lib order2 (getBackends lib order c heap hosts).client
        (getBackends lib order c heap hosts).heap hosts).client =
        (getBackends lib order c heap hosts).client ∧
      (getBackends lib order c heap []).client.backends.entries = [] ∧
      (getBackends lib order c heap []).heap = heap := by
  obtain ⟨kept, new, hentries, hkept, hpeer, hheap, hnew⟩ :=
    getBackends_frame lib order c heap hosts
  obtain ⟨hagain1, hagain2⟩ := getBackends_again lib order order2 c heap hosts
  refine ⟨?_, ?_, ?_, hagain2, hagain1, ?_, ?_⟩
  · intro u am hget hurl
    rw [GoMap.get_eq_some_iff, hentries]
    exact List.mem_append_left _
      (hpeer (u, am) ((GoMap.get_eq_some_iff _ u am).1 hget) hurl)
  · intro u am hget
    rw [GoMap.get_eq_some_iff, hentries] at hget
    rcases List.mem_append.1 hget with hm | hm
    · exact Or.inl ((GoMap.get_eq_some_iff _ u am).2 (hkept _ hm))
    · obtain ⟨h1, h2, h3, _⟩ := hnew _ hm
      exact Or.inr ⟨(GoMap.get_eq_none_iff _ u).2 h1, h2, by rw [hheap]; exact h3⟩
  · rw [hheap]
    congr 1
    unfold GoMap.keys
    rw [hentries, List.map_append, List.filter_append]
    have h1 : (kept.map Prod.fst).filter (fun u => decide (c.backends.get u = none)) = [] := by
      rw [List.filter_eq_nil_iff]
      intro u hu
      obtain ⟨e, hemem, rfl⟩ := List.mem_map.1 hu
      have : e.1 ∈ c.backends.keys := List.mem_map.2 ⟨e, hkept e hemem, rfl⟩
      simpa [GoMap.get_eq_none_iff] using this
    have h2 : (new.map Prod.fst).filter (fun u => decide (c.backends.get u = none)) =
        new.map Prod.fst := by
      rw [List.filter_eq_self]
      intro u hu
      obtain ⟨e, hemem, rfl⟩ := List.mem_map.1 hu
      simpa [GoMap.get_eq_none_iff] using (hnew e hemem).1
    rw [h1, h2]
    simp
  · simp [getBackends, insertLoop, withBackends, evictLoop_entries]
  · simp [getBackends, insertLoop]

/-- C3, on `exampleClient`: after a reconciliation with `10.0.0.2` and `10.0.0.3`, a
reconciliation with `10.0.0.3` and `10.0.0.4` keeps the handle of `http://10.0.0.3:9093`. -/
theorem getBackends_reuse_idempotent_witness :
    (getBackends goStdlib id exampleClient 1 ["10.0.0.2", "10.0.0.3"]).client =
        reconciledClient ∧
      (getBackends goStdlib id reconciledClient 3
        ["10.0.0.3", "10.0.0.4"]).client.backends.get "http://10.0.0.3:9093" =
        some ⟨2, ⟨"http", "10.0.0.3:9093", ""⟩⟩ :=
  ⟨by decide,
    (getBackends_reuse_idempotent goStdlib id id reconciledClient 3
      ["10.0.0.3", "10.0.0.4"]).1 "http://10.0.0.3:9093" ⟨2, ⟨"http", "10.0.0.3:9093", ""⟩⟩
      (by decide) ⟨"10.0.0.3", by decide, 9093, by decide, by decide⟩⟩

/-! ## Endpoint selection -/

theorem sprintfURL_injective (scheme : String) (tp : Int) (h1 h2 : String)
    (h : sprintfURL scheme h1 tp = sprintfURL scheme h2 tp) : h1 = h2 := by
  unfold sprintfURL at h
  have hd := congrArg String.data h
  simp only [String.data_append] at hd
  have hd' := List.append_cancel_right (List.append_cancel_right hd)
  have hd'' := List.append_cancel_left hd'
  exact String.ext hd''

theorem postLoop_ok_calls (post : PostOracle) (p : PostAlertsParams)
    (ams : List Alertmanager) (i : Nat) (h : (postLoop post p ams i).1 = .ok ()) :
    (postLoop post p ams i).2 = ams.map (fun am => (am, p)) := by
  induction ams generalizing i with
  | nil => simp [postLoop]
  | cons am rest ih =>
    cases hp : post i am p with
    | some e => simp [postLoop, hp] at h
    | none =>
      simp only [postLoop, hp] at h ⊢
      rw [ih (i + 1) h]
      rfl

/-- C1, as stated, fails: for a status with the peers `10.0.0.2:9094` and `10.0.0.2:9095` the
set of distinct peer hosts has one member, and `PostAlerts` issues its one call through the
connection of the peer `http://10.0.0.2:9093`, not through the shared connection. -/
theorem PostAlerts_same_host_counterexample :
    NewClient goStdlib 0 exampleConfig = .ok (exampleClient, 1) ∧
      (peerHosts statusSameHost).map List.dedup = some ["10.0.0.2"] ∧
      (PostAlerts goStdlib id (.ok statusSameHost) postAlwaysOk exampleClient 1 []).calls =
        [(⟨1, ⟨"http", "10.0.0.2:9093", ""⟩⟩, toPostAlertsParams [])] ∧
      (PostAlerts goStdlib id (.ok statusSameHost) postAlwaysOk exampleClient 1 []).calls ≠
        [(exampleClient.balancer, toPostAlertsParams [])] := by
  decide

/-- C1 (amended): when the list of peer hosts `peerHosts` extracts, repetitions counted, has
at most one member, `PostAlerts` issues exactly one alert-post wire call, through the shared
connection; when it has more than one member and `PostAlerts` returns no error, `PostAlerts`
issues exactly `n` alert-post wire calls, `n` the number of distinct hosts, one to the
connection the registry holds for the URL `scheme://host:targetPort` of each distinct host,
and none through the shared connection. -/
theorem PostAlerts_endpoint_selection (lib : Stdlib)
    (order : List Alertmanager → List Alertmanager) (post : PostOracle)
    (c : AlertmanagerClient) (heap : Nat) (alerts : List RawAlert)
    (st : AlertmanagerStatus) (hosts : List String)
    (horder : ∀ l, (order l).Perm l) (hhosts : peerHosts st = some hosts)
    (hbal : c.balancer.id < heap) (hreg : c.balancer ∉ c.backends.values) :
    (hosts.length ≤ 1 →
        (PostAlerts lib order (.ok st) post c heap alerts).calls =
          [(c.balancer, toPostAlertsParams alerts)]) ∧
      (1 < hosts.length →
        (PostAlerts lib order (.ok st) post c heap alerts).ret = .ok () →
        (PostAlerts lib order (.ok st) post c heap alerts).calls.length =
            hosts.dedup.length ∧
          (∃ tp, c.config.targetPort = some tp ∧
            ((PostAlerts lib order (.ok st) post c heap alerts).calls.map Prod.fst).Perm
              (hosts.dedup.filterMap (fun ph =>
                (PostAlerts lib order (.ok st) post c heap alerts).client.backends.get
                  (sprintfURL c.config.scheme ph tp)))) ∧
          (∀ call ∈ (PostAlerts lib order (.ok st) post c heap alerts).calls,
            call.1 ≠ c.balancer ∧ call.2 = toPostAlertsParams alerts)) := by
  refine ⟨?_, ?_⟩
  · intro hle
    have hsel : selectAms lib order (.ok st) c heap = ⟨.ok [c.balancer], c, heap⟩ := by
      simp [selectAms, GetStatus, hhosts, hle]
    simp only [PostAlerts, hsel]
    cases hp : post 0 c.balancer (toPostAlertsParams alerts) <;> simp [postLoop, hp]
  · intro hlt hret
    have hsel : selectAms lib order (.ok st) c heap = getBackends lib order c heap hosts := by
      simp [selectAms, GetStatus, hhosts, Nat.not_le.2 hlt]
    cases hg : (getBackends lib order c heap hosts).ret with
    | err e => simp [PostAlerts, hsel, hg] at hret
    | panic => simp [PostAlerts, hsel, hg] at hret
    | ok ams =>
      have hret' : (postLoop post (toPostAlertsParams alerts) ams 0).1 = .ok () := by
        simpa [PostAlerts, hsel, hg] using hret
      have hcalls : (PostAlerts lib order (.ok st) post c heap alerts).calls =
          ams.map (fun am => (am, toPostAlertsParams alerts)) := by
        simp only [PostAlerts, hsel, hg]
        exact postLoop_ok_calls post _ ams 0 hret'
      have hclient : (PostAlerts lib order (.ok st) post c heap alerts).client =
          (getBackends lib order c heap hosts).client := by
        simp only [PostAlerts, hsel, hg]
      rw [hcalls, hclient]
      obtain ⟨hkeys, hnodup, hperm, hlen, _⟩ :=
        getBackends_registry lib order c heap hosts ams horder hg
      obtain ⟨_, _, _, _, hentries⟩ := getBackends_ok lib order c heap hosts ams hg
      -- the target-port is set, because the list of hosts is not empty
      obtain ⟨ph0, hph0⟩ : ∃ ph, ph ∈ hosts := by
        cases hosts with
        | nil => simp at hlt
        | cons a _ => exact ⟨a, List.mem_cons_self _ _⟩
      obtain ⟨_, _, _, _, hdone⟩ := insertLoop_spec lib c.config hosts c.backends [] heap
      have htp : ∃ tp, c.config.targetPort = some tp := by
        rcases getBackends_cases lib order c heap hosts with ⟨hd, _⟩ | ⟨e, _, hr⟩ | ⟨_, hr⟩
        · obtain ⟨tp, htp, _⟩ := (hdone hd).2 ph0 hph0
          exact ⟨tp, htp⟩
        · rw [hr] at hg; cases hg
        · rw [hr] at hg; cases hg
      obtain ⟨tp, htp⟩ := htp
      -- the keys are the URLs of the distinct hosts
      have hurls : (getBackends lib order c heap hosts).client.backends.keys.Perm
          (hosts.dedup.map (fun ph => sprintfURL c.config.scheme ph tp)) := by
        apply (List.perm_ext_iff_of_nodup hnodup
          ((List.nodup_dedup hosts).map (fun a b hab =>
            sprintfURL_injective c.config.scheme tp a b hab))).2
        intro u
        rw [hkeys u, List.mem_map]
        constructor
        · rintro ⟨ph, hph, tp', htp', hu⟩
          rw [htp] at htp'
          cases htp'
          exact ⟨ph, List.mem_dedup.2 hph, hu.symm⟩
        · rintro ⟨ph, hph, hu⟩
          exact ⟨ph, List.mem_dedup.1 hph, tp, htp, hu.symm⟩
      refine ⟨?_, ⟨tp, htp, ?_⟩, ?_⟩
      · rw [List.length_map, hlen, hurls.length_eq, List.length_map]
      · have h1 : (ams.map (fun am => (am, toPostAlertsParams alerts))).map Prod.fst = ams := by
          simp [List.map_map, Function.comp_def]
        rw [h1]
        refine hperm.trans ?_
        rw [GoMap.values_eq_filterMap]
        have h2 := hurls.filterMap (getBackends lib order c heap hosts).client.backends.get
        rw [List.filterMap_map] at h2
        exact h2
      · intro call hcall
        obtain ⟨am, ham, rfl⟩ := List.mem_map.1 hcall
        refine ⟨?_, rfl⟩
        have hval := hperm.mem_iff.1 ham
        obtain ⟨e, hemem, rfl⟩ := List.mem_map.1 hval
        rcases hentries e hemem with hold | ⟨_, hge, _, _⟩
        · intro heq
          exact hreg (heq ▸ List.mem_map.2 ⟨e, hold, rfl⟩)
        · intro heq
          simp only at heq
          rw [heq] at hge
          omega

/-- C1 (amended), on two peers on two hosts: `PostAlerts` issues two calls, to the
connections of `http://10.0.0.2:9093` and `http://10.0.0.3:9093`. -/
theorem PostAlerts_endpoint_selection_witness :
    peerHosts statusTwoPeers = some ["10.0.0.2", "10.0.0.3"] ∧
      (PostAlerts goStdlib id (.ok statusTwoPeers) postAlwaysOk exampleClient 1 []).calls =
        exampleHandles.map (fun am => (am, toPostAlertsParams [])) ∧
      (PostAlerts goStdlib id (.ok statusTwoPeers) postAlwaysOk exampleClient 1 []).calls.length
        = ["10.0.0.2", "10.0.0.3"].dedup.length :=
  ⟨by decide, by decide,
    ((PostAlerts_endpoint_selection goStdlib id postAlwaysOk exampleClient 1 []
      statusTwoPeers ["10.0.0.2", "10.0.0.3"] (fun l => List.Perm.refl l) (by decide)
      (by decide) (by decide)).2 (by decide) (by decide)).1⟩

/-! ## The allocation invariant

The two allocation hypotheses of the endpoint-selection theorem hold of every client that
`NewClient` returns, and `getBackends` and `PostAlerts` keep them. -/

theorem NewClient_allocated (lib : Stdlib) (heap : Nat) (cfg : ClientConfig)
    (c : AlertmanagerClient) (heap' : Nat) (h : NewClient lib heap cfg = .ok (c, heap')) :
    c.balancer.id < heap' ∧ c.balancer ∉ c.backends.values := by
  rw [NewClient_eq] at h
  cases hr : resolveConfig lib cfg with
  | error e => rw [hr] at h; cases h
  | ok r =>
    obtain ⟨host, port, targetPort⟩ := r
    rw [hr] at h
    simp only at h
    cases hu : lib.urlParse (sprintfURL "http" host (port.getD 9093)) with
    | error e => rw [hu] at h; cases h
    | ok u =>
      rw [hu] at h
      simp only [Except.ok.injEq, Prod.mk.injEq] at h
      obtain ⟨hc, hh⟩ := h
      subst hc
      subst hh
      exact ⟨Nat.lt_succ_self _, by simp [GoMap.values, GoMap.empty]⟩

theorem getBackends_allocated (lib : Stdlib) (order : List Alertmanager → List Alertmanager)
    (c : AlertmanagerClient) (heap : Nat) (hosts : List String)
    (hbal : c.balancer.id < heap) (hreg : c.balancer ∉ c.backends.values) :
    (getBackends lib order c heap hosts).client.balancer.id <
        (getBackends lib order c heap hosts).heap ∧
      (getBackends lib order c heap hosts).client.balancer ∉
        (getBackends lib order c heap hosts).client.backends.values := by
  obtain ⟨kept, new, hentries, hkept, _, hheap, hnew⟩ :=
    getBackends_frame lib order c heap hosts
  obtain ⟨_, hb⟩ := getBackends_config lib order c heap hosts
  rw [hb, hheap]
  refine ⟨by omega, ?_⟩
  intro hmem
  unfold GoMap.values at hmem
  rw [hentries] at hmem
  obtain ⟨e, hemem, he⟩ := List.mem_map.1 hmem
  rcases List.mem_append.1 hemem with h | h
  · exact hreg (List.mem_map.2 ⟨e, hkept e h, he⟩)
  · have := (hnew e h).2.1
    rw [he] at this
    omega

theorem PostAlerts_allocated (lib : Stdlib) (order : List Alertmanager → List Alertmanager)
    (status : Except Error AlertmanagerStatus) (post : PostOracle)
    (c : AlertmanagerClient) (heap : Nat) (alerts : List RawAlert)
    (hbal : c.balancer.id < heap) (hreg : c.balancer ∉ c.backends.values) :
    (PostAlerts lib order status post c heap alerts).client.balancer.id <
        (PostAlerts lib order status post c heap alerts).heap ∧
      (PostAlerts lib order status post c heap alerts).client.balancer ∉
        (PostAlerts lib order status post c heap alerts).client.backends.values := by
  have hsel : (selectAms lib order status c heap).client.balancer.id <
      (selectAms lib order status c heap).heap ∧
      (selectAms lib order status c heap).client.balancer ∉
        (selectAms lib order status c heap).client.backends.values := by
    unfold selectAms
    cases status with
    | error e => exact ⟨hbal, hreg⟩
    | ok st =>
      simp only [GetStatus]
      cases peerHosts st with
      | none => exact ⟨hbal, hreg⟩
      | some hosts =>
        simp only
        by_cases hle : hosts.length ≤ 1
        · rw [if_pos hle]; exact ⟨hbal, hreg⟩
        · rw [if_neg hle]; exact getBackends_allocated lib order c heap hosts hbal hreg
  unfold PostAlerts
  simp only
  cases (selectAms lib order status c heap).ret <;> exact hsel

/-! ## Target-port default -/

/-- C11, on a configuration with the URL `http://localhost:9093` and a service reference
whose `Port` is 8080 and whose `TargetPort` is not specified: `NewClient` resolves the
target-port to 9093, the port of the URL, and not to 8080, the value of the `Port` field that
the comment on `ServiceReference.TargetPort` documents as the default. -/
theorem NewClient_target_port_with_url :
    configURLServicePort.Service = some ⟨"monitoring", "alertmanager", some 8080, none⟩ ∧
      NewClient goStdlib 0 configURLServicePort =
        .ok (⟨⟨"http", "localhost", some 9093, some 9093⟩,
          ⟨0, ⟨"http", "localhost:9093", ""⟩⟩, GoMap.empty⟩, 1) ∧
      (some 9093 : Option Int) ≠ some 8080 := by
  decide

/-! ## Silence translation -/

theorem decodeEach_fromMatcher (ms : List Matcher) :
    decodeEach fromMatcher
        (ms.map (fun m => (⟨some m.IsRegex, some m.Name, some m.Value⟩ : models.Matcher))) =
      .ok ms := by
  induction ms with
  | nil => rfl
  | cons m rest ih =>
    rw [List.map_cons, decodeEach, ih]
    rfl

/-- C12: decoding with `fromSilence` a fetched silence whose embedded wire silence is the one
`toPostSilenceParams` builds from `r`, with an identifier, a status state and an update time
supplied by the service, yields a `Silence` whose matchers (name, value, is-regex, in order),
`StartsAt`, `EndsAt`, `Comment` and `CreatedBy` are those of `r`. -/
theorem fromSilence_toPostSilenceParams (r : RawSilence) (id state : String)
    (updatedAt : DateTime) :
    ∃ s : Silence,
      fromSilence (some ⟨(toPostSilenceParams r).Silence.toSilence, some id,
        some ⟨some state⟩, some updatedAt⟩) = .ok (some s) ∧
      s.Matchers = r.Matchers ∧ s.StartsAt = r.StartsAt ∧ s.EndsAt = r.EndsAt ∧
      s.Comment = r.Comment ∧ s.CreatedBy = r.CreatedBy ∧
      s.ID = id ∧ s.Status = some ⟨state⟩ ∧ s.UpdatedAt = updatedAt := by
  refine ⟨⟨⟨id, r.StartsAt, r.EndsAt, r.Comment, r.CreatedBy, r.Matchers⟩, some ⟨state⟩,
    updatedAt⟩, ?_, rfl, rfl, rfl, rfl, rfl, rfl, rfl, rfl⟩
  simp only [fromSilence, toPostSilenceParams, decodeEach_fromMatcher]
  rfl

/-! ## The shared-connection path -/

/-- C15: when `peerHosts` yields at most one host, `PostAlerts` leaves the registry, the
whole client and the allocation counter exactly as they were. -/
theorem PostAlerts_shared_path_registry (lib : Stdlib)
    (order : List Alertmanager → List Alertmanager) (post : PostOracle)
    (c : AlertmanagerClient) (heap : Nat) (alerts : List RawAlert)
    (st : AlertmanagerStatus) (hosts : List String)
    (hhosts : peerHosts st = some hosts) (hle : hosts.length ≤ 1) :
    (PostAlerts lib order (.ok st) post c heap alerts).client.backends = c.backends ∧
      (PostAlerts lib order (.ok st) post c heap alerts).client = c ∧
      (PostAlerts lib order (.ok st) post c heap alerts).heap = heap := by
  have hsel : selectAms lib order (.ok st) c heap = ⟨.ok [c.balancer], c, heap⟩ := by
    simp [selectAms, GetStatus, hhosts, hle]
  simp only [PostAlerts, hsel, and_self]

/-- C15, on a client whose registry holds the connections of two peers and a status that
reports one peer: after `PostAlerts` the registry still holds both. -/
theorem PostAlerts_shared_path_registry_witness :
    peerHosts statusOnePeer = some ["10.0.0.2"] ∧
      reconciledClient.backends.keys = ["http://10.0.0.2:9093", "http://10.0.0.3:9093"] ∧
      (PostAlerts goStdlib id (.ok statusOnePeer) postAlwaysOk reconciledClient 3
        []).client.backends = reconciledClient.backends :=
  ⟨by decide, by decide,
    (PostAlerts_shared_path_registry goStdlib id postAlwaysOk reconciledClient 3 []
      statusOnePeer ["10.0.0.2"] (by decide) (by decide)).1⟩

/-! ## Query parameters -/

/-- C16: for two filters that agree on `Active`, `Inhibited`, `Silenced`, `Filter` and
`Receiver`, `toGetAlertGroupsParams` builds equal parameters, whatever their `Unprocessed`;
it passes those five through unchanged, and `toGetAlertsParams` passes `Unprocessed` through
as well, so that it tells filters with different `Unprocessed` apart. -/
theorem toGetAlertGroupsParams_ignores_unprocessed (af1 af2 : AlertsFilter)
    (hA : af1.Active = af2.Active) (hI : af1.Inhibited = af2.Inhibited)
    (hS : af1.Silenced = af2.Silenced) (hF : af1.Filter = af2.Filter)
    (hR : af1.Receiver = af2.Receiver) :
    toGetAlertGroupsParams af1 = toGetAlertGroupsParams af2 ∧
      toGetAlertGroupsParams af1 =
        ⟨some af1.Active, af1.Filter, some af1.Inhibited, some af1.Receiver,
          some af1.Silenced⟩ ∧
      toGetAlertsParams af1 =
        ⟨some af1.Active, af1.Filter, some af1.Inhibited, some af1.Receiver,
          some af1.Silenced, some af1.Unprocessed⟩ ∧
      (af1.Unprocessed ≠ af2.Unprocessed → toGetAlertsParams af1 ≠ toGetAlertsParams af2) := by
  have hg : ∀ af : AlertsFilter, toGetAlertGroupsParams af =
      ⟨some af.Active, af.Filter, some af.Inhibited, some af.Receiver, some af.Silenced⟩ :=
    fun _ => rfl
  have ha : ∀ af : AlertsFilter, toGetAlertsParams af =
      ⟨some af.Active, af.Filter, some af.Inhibited, some af.Receiver, some af.Silenced,
        some af.Unprocessed⟩ :=
    fun _ => rfl
  refine ⟨?_, hg af1, ha af1, ?_⟩
  · rw [hg af1, hg af2, hA, hI, hS, hF, hR]
  · intro hne heq
    rw [ha af1, ha af2] at heq
    simp only [alert.GetAlertsParams.mk.injEq, Option.some.injEq] at heq
    exact hne heq.2.2.2.2.2

/-- C16, on the filter of `NewAlertsFilter` and the same filter with `Unprocessed` off: the
alert-group parameters are equal, the alert parameters differ. -/
theorem toGetAlertGroupsParams_ignores_unprocessed_witness :
    toGetAlertGroupsParams NewAlertsFilter =
        toGetAlertGroupsParams ⟨true, true, true, false, [], ""⟩ ∧
      toGetAlertsParams NewAlertsFilter ≠ toGetAlertsParams ⟨true, true, true, false, [], ""⟩ :=
  ⟨(toGetAlertGroupsParams_ignores_unprocessed NewAlertsFilter ⟨true, true, true, false, [], ""⟩
      rfl rfl rfl rfl rfl).1,
    (toGetAlertGroupsParams_ignores_unprocessed NewAlertsFilter ⟨true, true, true, false, [], ""⟩
      rfl rfl rfl rfl rfl).2.2.2 (by decide)⟩

/-! ## Reconciliation that fails -/

theorem insertLoop_fail (lib : Stdlib) (cfg : Config) (hosts : List String)
    (b : GoMap Alertmanager) (phmap : List String) (heap : Nat) (e : Error)
    (h : (insertLoop lib cfg hosts b phmap heap).1 = .fail e) :
    ∃ ph ∈ hosts, ∃ tp, cfg.targetPort = some tp ∧
      lib.urlParse (sprintfURL cfg.scheme ph tp) = .error e := by
  induction hosts generalizing b phmap heap with
  | nil => simp [insertLoop] at h
  | cons ph rest ih =>
    have hcases : cfg.targetPort = none ∨ ∃ tp, cfg.targetPort = some tp := by
      cases cfg.targetPort with
      | none => exact Or.inl rfl
      | some tp => exact Or.inr ⟨tp, rfl⟩
    rcases hcases with htp | ⟨tp, htp⟩
    · rw [insertLoop] at h
      simp [htp] at h
    · cases hg : b.get (sprintfURL cfg.scheme ph tp) with
      | some am0 =>
        have heq : insertLoop lib cfg (ph :: rest) b phmap heap =
            insertLoop lib cfg rest b (sprintfURL cfg.scheme ph tp :: phmap) heap := by
          rw [insertLoop]; simp only [htp, hg]
        rw [heq] at h
        obtain ⟨ph', hph', r⟩ := ih b _ heap h
        exact ⟨ph', List.mem_cons_of_mem _ hph', r⟩
      | none =>
        cases hp : lib.urlParse (sprintfURL cfg.scheme ph tp) with
        | error e' =>
          have heq : insertLoop lib cfg (ph :: rest) b phmap heap =
              (.fail e', b, sprintfURL cfg.scheme ph tp :: phmap, heap) := by
            rw [insertLoop]; simp only [htp, hg, hp]
          rw [heq] at h
          simp only [Exit.fail.injEq] at h
          subst h
          exact ⟨ph, List.mem_cons_self _ _, tp, htp, hp⟩
        | ok uu =>
          have heq : insertLoop lib cfg (ph :: rest) b phmap heap =
              insertLoop lib cfg rest (b.set (sprintfURL cfg.scheme ph tp) ⟨heap, uu⟩)
                (sprintfURL cfg.scheme ph tp :: phmap) (heap + 1) := by
            rw [insertLoop]; simp only [htp, hg, hp, NewAlertmanagerClient]
          rw [heq] at h
          obtain ⟨ph', hph', r⟩ := ih _ _ (heap + 1) h
          exact ⟨ph', List.mem_cons_of_mem _ hph', r⟩

/-- C13, as stated, fails: on an empty registry, `getBackends` of the hosts `10.0.0.2` and
`bad host` fails on the second host and leaves the connection it inserted for the first in
the registry. -/
theorem getBackends_partial_commit_counterexample :
    exampleClient.backends.entries = [] ∧
      (getBackends goStdlib id exampleClient 1 ["10.0.0.2", "bad host"]).ret =
        .err "parse \"http://bad host:9093\": invalid character \" \" in host name" ∧
      (getBackends goStdlib id exampleClient 1 ["10.0.0.2", "bad host"]).client.backends.entries
        = [("http://10.0.0.2:9093", ⟨1, ⟨"http", "10.0.0.2:9093", ""⟩⟩)] ∧
      (getBackends goStdlib id exampleClient 1 ["10.0.0.2", "bad host"]).client.backends ≠
        exampleClient.backends := by
  decide

theorem insertLoop_fail_split (lib : Stdlib) (cfg : Config) (hosts : List String)
    (b : GoMap Alertmanager) (phmap : List String) (heap : Nat) (e : Error)
    (h : (insertLoop lib cfg hosts b phmap heap).1 = .fail e) :
    ∃ (pre : List String) (ph : String) (post : List String) (tp : Int),
      hosts = pre ++ ph :: post ∧ cfg.targetPort = some tp ∧
      lib.urlParse (sprintfURL cfg.scheme ph tp) = .error e ∧
      sprintfURL cfg.scheme ph tp ∉ (insertLoop lib cfg hosts b phmap heap).2.1.keys ∧
      (∀ u, u ∈ (insertLoop lib cfg hosts b phmap heap).2.1.keys ↔
        u ∈ b.keys ∨ ∃ q ∈ pre, u = sprintfURL cfg.scheme q tp) := by
  induction hosts generalizing b phmap heap with
  | nil => simp [insertLoop] at h
  | cons ph0 rest ih =>
    have hcases : cfg.targetPort = none ∨ ∃ tp, cfg.targetPort = some tp := by
      cases cfg.targetPort with
      | none => exact Or.inl rfl
      | some tp => exact Or.inr ⟨tp, rfl⟩
    rcases hcases with htp | ⟨tp, htp⟩
    · rw [insertLoop] at h
      simp [htp] at h
    · cases hg : b.get (sprintfURL cfg.scheme ph0 tp) with
      | some am0 =>
        have heq : insertLoop lib cfg (ph0 :: rest) b phmap heap =
            insertLoop lib cfg rest b (sprintfURL cfg.scheme ph0 tp :: phmap) heap := by
          rw [insertLoop]; simp only [htp, hg]
        rw [heq] at h ⊢
        obtain ⟨pre, ph, post, tp', hsplit, htp', hparse, hnot, hkeys⟩ := ih b _ heap h
        have htt : tp' = tp := by rw [htp] at htp'; cases htp'; rfl
        subst htt
        refine ⟨ph0 :: pre, ph, post, tp', by rw [hsplit]; rfl, htp, hparse, hnot, ?_⟩
        intro u
        rw [hkeys u]
        constructor
        · rintro (hu | ⟨q, hq, hu⟩)
          · exact Or.inl hu
          · exact Or.inr ⟨q, List.mem_cons_of_mem _ hq, hu⟩
        · rintro (hu | ⟨q, hq, hu⟩)
          · exact Or.inl hu
          · rcases List.mem_cons.1 hq with hq0 | hq'
            · subst hq0
              exact Or.inl (by rw [hu]; exact (GoMap.mem_keys_iff b _).2 ⟨am0, hg⟩)
            · exact Or.inr ⟨q, hq', hu⟩
      | none =>
        cases hp : lib.urlParse (sprintfURL cfg.scheme ph0 tp) with
        | error e' =>
          have heq : insertLoop lib cfg (ph0 :: rest) b phmap heap =
              (.fail e', b, sprintfURL cfg.scheme ph0 tp :: phmap, heap) := by
            rw [insertLoop]; simp only [htp, hg, hp]
          rw [heq] at h ⊢
          simp only [Exit.fail.injEq] at h
          subst h
          refine ⟨[], ph0, rest, tp, rfl, htp, hp, (GoMap.get_eq_none_iff b _).1 hg, ?_⟩
          intro u
          simp
        | ok uu =>
          have heq : insertLoop lib cfg (ph0 :: rest) b phmap heap =
              insertLoop lib cfg rest (b.set (sprintfURL cfg.scheme ph0 tp) ⟨heap, uu⟩)
                (sprintfURL cfg.scheme ph0 tp :: phmap) (heap + 1) := by
            rw [insertLoop]; simp only [htp, hg, hp, NewAlertmanagerClient]
          rw [heq] at h ⊢
          have hb1 := GoMap.set_entries_of_get_none b (sprintfURL cfg.scheme ph0 tp)
            ⟨heap, uu⟩ hg
          have hk1 : ∀ u, u ∈ (b.set (sprintfURL cfg.scheme ph0 tp) ⟨heap, uu⟩).keys ↔
              u ∈ b.keys ∨ u = sprintfURL cfg.scheme ph0 tp := by
            intro u
            unfold GoMap.keys
            rw [hb1, List.map_append, List.mem_append]
            simp
          obtain ⟨pre, ph, post, tp', hsplit, htp', hparse, hnot, hkeys⟩ := ih _ _ (heap + 1) h
          have htt : tp' = tp := by rw [htp] at htp'; cases htp'; rfl
          subst htt
          refine ⟨ph0 :: pre, ph, post, tp', by rw [hsplit]; rfl, htp, hparse, hnot, ?_⟩
          intro u
          rw [hkeys u, hk1 u]
          constructor
          · rintro ((hu | hu) | ⟨q, hq, hu⟩)
            · exact Or.inl hu
            · exact Or.inr ⟨ph0, List.mem_cons_self _ _, hu⟩
            · exact Or.inr ⟨q, List.mem_cons_of_mem _ hq, hu⟩
          · rintro (hu | ⟨q, hq, hu⟩)
            · exact Or.inl (Or.inl hu)
            · rcases List.mem_cons.1 hq with hq0 | hq'
              · subst hq0
                exact Or.inl (Or.inr hu)
              · exact Or.inr ⟨q, hq', hu⟩

theorem getBackends_constructed_count (lib : Stdlib)
    (order : List Alertmanager → List Alertmanager)
    (c : AlertmanagerClient) (heap : Nat) (hosts : List String) :
    (getBackends lib order c heap hosts).heap =
      heap + ((getBackends lib order c heap hosts).client.backends.keys.filter
        (fun u => decide (c.backends.get u = none))).length := by
  obtain ⟨kept, new, hentries, hkept, _, hheap, hnew⟩ :=
    getBackends_frame lib order c heap hosts
  rw [hheap]
  congr 1
  unfold GoMap.keys
  rw [hentries, List.map_append, List.filter_append]
  have h1 : (kept.map Prod.fst).filter (fun u => decide (c.backends.get u = none)) = [] := by
    rw [List.filter_eq_nil_iff]
    intro u hu
    obtain ⟨en, hemem, rfl⟩ := List.mem_map.1 hu
    have : en.1 ∈ c.backends.keys := List.mem_map.2 ⟨en, hkept en hemem, rfl⟩
    simpa [GoMap.get_eq_none_iff] using this
  have h2 : (new.map Prod.fst).filter (fun u => decide (c.backends.get u = none)) =
      new.map Prod.fst := by
    rw [List.filter_eq_self]
    intro u hu
    obtain ⟨en, hemem, rfl⟩ := List.mem_map.1 hu
    simpa [GoMap.get_eq_none_iff] using (hnew en hemem).1
  rw [h1, h2]
  simp

/-- C13 (amended): when `getBackends` fails with error `e`, the host list is `pre`, then a
host `ph` for whose URL `url.Parse` gave `e`, then `post`, and afterwards: every host of
`pre` has a connection in the registry, under its URL, and `ph` has none; the keys of the
registry are exactly the keys it had before and the URLs of the hosts of `pre` (nothing is
evicted, the insertions made before the failure stay); every entry the registry held keeps
its handle; every other entry is a connection constructed by this call from its URL; the
number of connections constructed is the number of keys that were absent before; and the
registry equals the registry before exactly when the URL of every host of `pre` was already
a key. -/
theorem getBackends_failure (lib : Stdlib) (order : List Alertmanager → List Alertmanager)
    (c : AlertmanagerClient) (heap : Nat) (hosts : List String) (e : Error)
    (h : (getBackends lib order c heap hosts).ret = .err e) :
    ∃ (pre : List String) (ph : String) (post : List String) (tp : Int),
      hosts = pre ++ ph :: post ∧ c.config.targetPort = some tp ∧
      lib.urlParse (sprintfURL c.config.scheme ph tp) = .error e ∧
      (∀ q ∈ pre, ∃ am, (getBackends lib order c heap hosts).client.backends.get
        (sprintfURL c.config.scheme q tp) = some am) ∧
      (getBackends lib order c heap hosts).client.backends.get
        (sprintfURL c.config.scheme ph tp) = none ∧
      (∀ u, u ∈ (getBackends lib order c heap hosts).client.backends.keys ↔
        u ∈ c.backends.keys ∨ ∃ q ∈ pre, u = sprintfURL c.config.scheme q tp) ∧
      (∀ u am, c.backends.get u = some am →
        (getBackends lib order c heap hosts).client.backends.get u = some am) ∧
      (∀ u am, (getBackends lib order c heap hosts).client.backends.get u = some am →
        c.backends.get u = none →
        heap ≤ am.id ∧ am.id < (getBackends lib order c heap hosts).heap ∧
          lib.urlParse u = .ok am.target) ∧
      (getBackends lib order c heap hosts).heap =
        heap + ((getBackends lib order c heap hosts).client.backends.keys.filter
          (fun u => decide (c.backends.get u = none))).length ∧
      ((getBackends lib order c heap hosts).client.backends = c.backends ↔
        ∀ q ∈ pre, sprintfURL c.config.scheme q tp ∈ c.backends.keys) := by
  have hcount := getBackends_constructed_count lib order c heap hosts
  obtain ⟨new, he, hh, hnew, _⟩ := insertLoop_spec lib c.config hosts c.backends [] heap
  rcases getBackends_cases lib order c heap hosts with ⟨_, hr⟩ | ⟨e', hf, hr⟩ | ⟨_, hr⟩
  · rw [hr] at h; cases h
  · have he' : e' = e := by
      rw [hr] at h
      simpa using h
    subst he'
    obtain ⟨pre, ph, post, tp, hsplit, htp, hparse, hnot, hkeys⟩ :=
      insertLoop_fail_split lib c.config hosts c.backends [] heap e' hf
    have hb : (getBackends lib order c heap hosts).client.backends =
        (insertLoop lib c.config hosts c.backends [] heap).2.1 := by rw [hr]; rfl
    have hheap : (getBackends lib order c heap hosts).heap = heap + new.length := by
      rw [hr]; exact hh
    rw [hb] at hcount ⊢
    refine ⟨pre, ph, post, tp, hsplit, htp, hparse, ?_, (GoMap.get_eq_none_iff _ _).2 hnot,
      hkeys, ?_, ?_, hcount, ?_⟩
    · intro q hq
      exact (GoMap.mem_keys_iff _ _).1 ((hkeys _).2 (Or.inr ⟨q, hq, rfl⟩))
    · intro u am hget
      rw [GoMap.get_eq_some_iff, he]
      exact List.mem_append_left _ ((GoMap.get_eq_some_iff _ u am).1 hget)
    · intro u am hget hnone
      rw [GoMap.get_eq_some_iff, he] at hget
      rcases List.mem_append.1 hget with hm | hm
      · rw [(GoMap.get_eq_some_iff _ u am).2 hm] at hnone
        cases hnone
      · obtain ⟨_, h2, h3, h4, _⟩ := hnew _ hm
        exact ⟨h2, by rw [hheap]; exact h3, h4⟩
    · constructor
      · intro heq q hq
        have hin := (hkeys (sprintfURL c.config.scheme q tp)).2 (Or.inr ⟨q, hq, rfl⟩)
        rw [heq] at hin
        exact hin
      · intro hall
        have hnil : new = [] := by
          cases hn : new with
          | nil => rfl
          | cons en rest =>
            exfalso
            have hen : en ∈ new := by rw [hn]; exact List.mem_cons_self _ _
            have habs := (hnew en hen).1
            have hin : en.1 ∈ (insertLoop lib c.config hosts c.backends [] heap).2.1.keys := by
              unfold GoMap.keys
              rw [he, List.map_append]
              exact List.mem_append_right _ (List.mem_map.2 ⟨en, hen, rfl⟩)
            rcases (hkeys en.1).1 hin with hk | ⟨q, hq, hu⟩
            · exact habs hk
            · exact habs (by rw [hu]; exact hall q hq)
        apply GoMap.ext_entries
        rw [he, hnil, List.append_nil]
  · rw [hr] at h; cases h

/-- C13 (amended), on the hosts `10.0.0.2` and `bad host` and an empty registry: the call
fails with the error of `bad host`, the registry afterwards holds the connection constructed
for `10.0.0.2`, and the statement above holds of this call. -/
theorem getBackends_failure_witness :
    (getBackends goStdlib id exampleClient 1 ["10.0.0.2", "bad host"]).ret =
        .err "parse \"http://bad host:9093\": invalid character \" \" in host name" ∧
      (getBackends goStdlib id exampleClient 1 ["10.0.0.2", "bad host"]).client.backends.get
        "http://10.0.0.2:9093" = some ⟨1, ⟨"http", "10.0.0.2:9093", ""⟩⟩ ∧
      (getBackends goStdlib id exampleClient 1 ["10.0.0.2", "bad host"]).heap = 2 ∧
      ∃ (pre : List String) (ph : String) (post : List String) (tp : Int),
        ["10.0.0.2", "bad host"] = pre ++ ph :: post ∧
        exampleClient.config.targetPort = some tp ∧
        goStdlib.urlParse (sprintfURL exampleClient.config.scheme ph tp) =
          .error "parse \"http://bad host:9093\": invalid character \" \" in host name" ∧
        (∀ q ∈ pre, ∃ am,
          (getBackends goStdlib id exampleClient 1 ["10.0.0.2", "bad host"]).client.backends.get
            (sprintfURL exampleClient.config.scheme q tp) = some am) ∧
        ((getBackends goStdlib id exampleClient 1 ["10.0.0.2", "bad host"]).client.backends =
            exampleClient.backends ↔
          ∀ q ∈ pre, sprintfURL exampleClient.config.scheme q tp ∈
            exampleClient.backends.keys) :=
  ⟨by decide, by decide, by decide,
    (getBackends_failure goStdlib id exampleClient 1 ["10.0.0.2", "bad host"]
      "parse \"http://bad host:9093\": invalid character \" \" in host name"
      (by decide)).imp (fun _ hpre => hpre.imp (fun _ hph => hph.imp (fun _ hpost =>
        hpost.imp (fun _ hall =>
          ⟨hall.1, hall.2.1, hall.2.2.1, hall.2.2.2.1, hall.2.2.2.2.2.2.2.2.2⟩))))⟩

/-! ## Decoding and absent fields -/

theorem decodeEach_total {α β : Type} (f : α → Outcome β) (p : α → Bool)
    (hok : ∀ a, p a = true → ∃ b, f a = .ok b) (hpanic : ∀ a, p a = false → f a = .panic)
    (l : List α) :
    (l.all p = true → ∃ bs, decodeEach f l = .ok bs ∧ bs.length = l.length) ∧
      (l.all p = false → decodeEach f l = .panic) := by
  induction l with
  | nil => exact ⟨fun _ => ⟨[], rfl, rfl⟩, fun h => by simp at h⟩
  | cons a rest ih =>
    cases hp : p a with
    | false =>
      refine ⟨fun h => by simp [hp] at h, fun _ => ?_⟩
      rw [decodeEach, hpanic a hp]
      rfl
    | true =>
      obtain ⟨b, hb⟩ := hok a hp
      have hall : (a :: rest).all p = rest.all p := by simp [hp]
      rw [hall]
      refine ⟨fun h => ?_, fun h => ?_⟩
      · obtain ⟨bs, hbs, hlen⟩ := ih.1 h
        refine ⟨b :: bs, ?_, by simp [hlen]⟩
        rw [decodeEach, hb, hbs]
        rfl
      · rw [decodeEach, hb, ih.2 h]
        rfl

theorem fromReceiver_total (r : models.Receiver) :
    (r.Name.isSome = true → ∃ b, fromReceiver r = .ok b) ∧
      (r.Name.isSome = false → fromReceiver r = .panic) := by
  obtain ⟨name⟩ := r
  cases name <;> simp [fromReceiver, deref, Outcome.bind]

theorem fromGettableAlert_total (a : models.GettableAlert) :
    (alertPresent a = true → ∃ b, fromGettableAlert a = .ok b) ∧
      (alertPresent a = false → fromGettableAlert a = .panic) := by
  obtain ⟨labels, ann, startsAt, endsAt, fingerprint, receivers, status⟩ := a
  have hrs := decodeEach_total fromReceiver (fun r => r.Name.isSome)
    (fun r => (fromReceiver_total r).1) (fun r => (fromReceiver_total r).2) receivers
  cases hall : receivers.all (fun r => r.Name.isSome) with
  | false =>
    have h := hrs.2 hall
    simp [alertPresent, fromGettableAlert, hall, h, Outcome.bind]
  | true =>
    obtain ⟨rs, h, _⟩ := hrs.1 hall
    cases startsAt <;> cases endsAt <;> cases fingerprint <;>
      rcases status with _ | ⟨ib, sb, _ | state⟩ <;>
      simp [alertPresent, fromGettableAlert, hall, h, deref, Outcome.bind]

theorem fromGettableAlerts_total (alerts : List models.GettableAlert) :
    (alerts.all alertPresent = true →
        ∃ v, fromGettableAlerts alerts = .ok v ∧ v.length = alerts.length) ∧
      (alerts.all alertPresent = false → fromGettableAlerts alerts = .panic) :=
  decodeEach_total fromGettableAlert alertPresent
    (fun a => (fromGettableAlert_total a).1) (fun a => (fromGettableAlert_total a).2) alerts

theorem fromAlertGroup_total (ag : models.AlertGroup) :
    (groupPresent ag = true → ∃ b, fromAlertGroup ag = .ok b) ∧
      (groupPresent ag = false → fromAlertGroup ag = .panic) := by
  obtain ⟨alerts, labels, receiver⟩ := ag
  have has := fromGettableAlerts_total alerts
  cases hall : alerts.all alertPresent with
  | false =>
    have h := has.2 hall
    simp [groupPresent, fromAlertGroup, hall, h, Outcome.bind]
  | true =>
    obtain ⟨v, h, _⟩ := has.1 hall
    rcases receiver with _ | ⟨_ | name⟩ <;>
      simp [groupPresent, fromAlertGroup, hall, h, deref, Outcome.bind]

theorem fromMatcher_total (m : models.Matcher) :
    (matcherPresent m = true → ∃ b, fromMatcher m = .ok b) ∧
      (matcherPresent m = false → fromMatcher m = .panic) := by
  obtain ⟨isRegex, name, value⟩ := m
  cases isRegex <;> cases name <;> cases value <;>
    simp [matcherPresent, fromMatcher, deref, Outcome.bind]

theorem fromSilence_total (gs : models.GettableSilence) :
    (silencePresent gs = true → ∃ s, fromSilence (some gs) = .ok (some s)) ∧
      (silencePresent gs = false → fromSilence (some gs) = .panic) := by
  obtain ⟨⟨comment, createdBy, endsAt, matchers, startsAt⟩, id, status, updatedAt⟩ := gs
  have hms := decodeEach_total fromMatcher matcherPresent
    (fun m => (fromMatcher_total m).1) (fun m => (fromMatcher_total m).2) matchers
  cases hall : matchers.all matcherPresent with
  | false =>
    have h := hms.2 hall
    simp [silencePresent, fromSilence, hall, h, Outcome.bind]
  | true =>
    obtain ⟨ms, h, _⟩ := hms.1 hall
    cases id <;> cases startsAt <;> cases endsAt <;> cases comment <;> cases createdBy <;>
      cases updatedAt <;> rcases status with _ | ⟨_ | state⟩ <;>
      simp [silencePresent, fromSilence, hall, h, deref, Outcome.bind]

/-- C14, as stated, fails: on an alert whose status has no state `fromGettableAlerts` and
`fromAlertGroups` reach the nil dereference, and so does `fromSilence` on a silence with no
status; none of them produces an error or a value. -/
theorem decoders_panic_counterexample :
    fromGettableAlerts [wireAlertNoState] = .panic ∧
      fromAlertGroups [⟨[wireAlertNoState], [], some ⟨some "default"⟩⟩] = .panic ∧
      fromSilence (some wireSilenceNoStatus) = .panic := by
  decide

/-- C14 (amended): `fromGettableAlerts`, `fromAlertGroups` and `fromSilence` produce no decode
error: each returns a value when every field it dereferences is present, and reaches a nil
dereference when one of them is absent.  The fields dereferenced are the `Name` of each
receiver, `StartsAt`, `EndsAt` and `Fingerprint` of each alert, the `State` of an alert
`Status` that is present, the `Name` of a group `Receiver` that is present, and for a silence
`ID`, `StartsAt`, `EndsAt`, `Comment`, `CreatedBy`, `Status`, its `State`, `UpdatedAt` and
`IsRegex`, `Name`, `Value` of each matcher; an absent alert `Status`, an absent group
`Receiver` and a nil silence are not dereferenced. -/
theorem decoders_absent_fields :
    (∀ alerts : List models.GettableAlert,
        (alerts.all alertPresent = true →
          ∃ v, fromGettableAlerts alerts = .ok v ∧ v.length = alerts.length) ∧
        (alerts.all alertPresent = false → fromGettableAlerts alerts = .panic)) ∧
      (∀ ags : List models.AlertGroup,
        (ags.all groupPresent = true →
          ∃ v, fromAlertGroups ags = .ok v ∧ v.length = ags.length) ∧
        (ags.all groupPresent = false → fromAlertGroups ags = .panic)) ∧
      fromSilence none = .ok none ∧
      (∀ gs : models.GettableSilence,
        (silencePresent gs = true → ∃ s, fromSilence (some gs) = .ok (some s)) ∧
        (silencePresent gs = false → fromSilence (some gs) = .panic)) :=
  ⟨fromGettableAlerts_total,
    fun ags => decodeEach_total fromAlertGroup groupPresent
      (fun ag => (fromAlertGroup_total ag).1) (fun ag => (fromAlertGroup_total ag).2) ags,
    rfl, fromSilence_total⟩

/-- C14 (amended), on an alert with every field present, and on the same alert in a group
without receiver: both decode to a value. -/
theorem decoders_absent_fields_witness :
    (∃ v, fromGettableAlerts [wireAlert] = .ok v ∧ v.length = 1) ∧
      (∃ v, fromAlertGroups [⟨[wireAlert], [], none⟩] = .ok v ∧ v.length = 1) :=
  ⟨(decoders_absent_fields.1 [wireAlert]).1 (by decide),
    (decoders_absent_fields.2.1 [⟨[wireAlert], [], none⟩]).1 (by decide)⟩

end Kit
